import Mathlib

/-!
Shallow embedding of the Jarvis stereo point-cloud pipeline
(`src/preprocessing.py`, `src/feature_extraction.py`, `src/main.py`).

Modelling conventions:
* a point / color is a triple of rationals (Python floats are modelled as
  exact rationals; coordinates only pass through `+ - * / min max` and
  truncation, which are exact);
* quantities that the source obtains through `np.linalg.norm` / `np.std`
  (i.e. through a square root) live in `ℝ` via `Real.sqrt`;
* numpy arrays are modelled as lists in their original order;
* the external capabilities `cv2.GaussianBlur` and
  `cv2.SIFT_create().detectAndCompute` are abstract function parameters.
-/

namespace Jarvis

/-- A 3D point, as a triple of rationals: `(x, (y, z))`. -/
abbrev Point : Type := ℚ × ℚ × ℚ

/-- A color triple `(r, (g, b))`. -/
abbrev Color : Type := ℚ × ℚ × ℚ

/-! ### Generic list helpers (models of numpy reductions) -/

/-- Model of `np.min` on a non-empty 1-D array (`0` as junk value for `[]`). -/
def npMin : List ℚ → ℚ
  | [] => 0
  | x :: xs => xs.foldl min x

/-- Model of `np.max` on a non-empty 1-D array (`0` as junk value for `[]`). -/
def npMax : List ℚ → ℚ
  | [] => 0
  | x :: xs => xs.foldl max x

theorem foldl_min_le_init (l : List ℚ) (a : ℚ) : l.foldl min a ≤ a := by
  induction l generalizing a with
  | nil => exact le_refl a
  | cons x xs ih => exact le_trans (ih (min a x)) (min_le_left a x)

theorem foldl_min_le_mem (l : List ℚ) (a x : ℚ) (hx : x ∈ l) : l.foldl min a ≤ x := by
  induction l generalizing a with
  | nil => cases hx
  | cons y ys ih =>
    rcases List.mem_cons.mp hx with h | h
    · subst h
      exact le_trans (foldl_min_le_init ys (min a x)) (min_le_right a x)
    · exact ih (min a y) h

theorem le_foldl_max_init (l : List ℚ) (a : ℚ) : a ≤ l.foldl max a := by
  induction l generalizing a with
  | nil => exact le_refl a
  | cons x xs ih => exact le_trans (le_max_left a x) (ih (max a x))

theorem le_foldl_max_mem (l : List ℚ) (a x : ℚ) (hx : x ∈ l) : x ≤ l.foldl max a := by
  induction l generalizing a with
  | nil => cases hx
  | cons y ys ih =>
    rcases List.mem_cons.mp hx with h | h
    · subst h
      exact le_trans (le_max_right a x) (le_foldl_max_init ys (max a x))
    · exact ih (max a y) h

theorem npMin_le (l : List ℚ) (x : ℚ) (hx : x ∈ l) : npMin l ≤ x := by
  cases l with
  | nil => cases hx
  | cons y ys =>
    rcases List.mem_cons.mp hx with h | h
    · subst h; exact foldl_min_le_init ys x
    · exact foldl_min_le_mem ys y x h

theorem le_npMax (l : List ℚ) (x : ℚ) (hx : x ∈ l) : x ≤ npMax l := by
  cases l with
  | nil => cases hx
  | cons y ys =>
    rcases List.mem_cons.mp hx with h | h
    · subst h; exact le_foldl_max_init ys x
    · exact le_foldl_max_mem ys y x h

/-- Pushing a `min`-preserving map through a `min`-fold. -/
theorem foldl_min_map (g : ℚ → ℚ) (hg : ∀ a b, g (min a b) = min (g a) (g b))
    (l : List ℚ) (a : ℚ) : (l.map g).foldl min (g a) = g (l.foldl min a) := by
  induction l generalizing a with
  | nil => rfl
  | cons x xs ih =>
    simp only [List.map_cons, List.foldl_cons, ← hg a x]
    exact ih (min a x)

/-- Pushing a `max`-preserving map through a `max`-fold. -/
theorem foldl_max_map (g : ℚ → ℚ) (hg : ∀ a b, g (max a b) = max (g a) (g b))
    (l : List ℚ) (a : ℚ) : (l.map g).foldl max (g a) = g (l.foldl max a) := by
  induction l generalizing a with
  | nil => rfl
  | cons x xs ih =>
    simp only [List.map_cons, List.foldl_cons, ← hg a x]
    exact ih (max a x)

theorem npMin_map (g : ℚ → ℚ) (hg : ∀ a b, g (min a b) = min (g a) (g b))
    (l : List ℚ) (hl : l ≠ []) : npMin (l.map g) = g (npMin l) := by
  cases l with
  | nil => exact absurd rfl hl
  | cons x xs => exact foldl_min_map g hg xs x

theorem npMax_map (g : ℚ → ℚ) (hg : ∀ a b, g (max a b) = max (g a) (g b))
    (l : List ℚ) (hl : l ≠ []) : npMax (l.map g) = g (npMax l) := by
  cases l with
  | nil => exact absurd rfl hl
  | cons x xs => exact foldl_max_map g hg xs x

/-- Boolean-mask selection: model of numpy fancy indexing `arr[mask]`. -/
def applyMask {α : Type} : List α → List Bool → List α
  | x :: xs, b :: bs => if b then x :: applyMask xs bs else applyMask xs bs
  | _, _ => []

theorem applyMask_sublist {α : Type} (l : List α) (q : List Bool) :
    (applyMask l q).Sublist l := by
  induction l generalizing q with
  | nil => cases q <;> simp [applyMask]
  | cons x xs ih =>
    cases q with
    | nil => simp [applyMask]
    | cons b bs =>
      cases b with
      | true => simpa [applyMask] using (ih bs).cons₂ x
      | false => simpa [applyMask] using (ih bs).cons x

theorem applyMask_false {α : Type} (l : List α) (q : List Bool)
    (hq : ∀ b ∈ q, b = false) : applyMask l q = [] := by
  induction l generalizing q with
  | nil => cases q <;> rfl
  | cons x xs ih =>
    cases q with
    | nil => rfl
    | cons b bs =>
      have hb : b = false := hq b (List.mem_cons_self b bs)
      subst hb
      simpa [applyMask] using ih bs (fun c hc => hq c (List.mem_cons_of_mem _ hc))

/-- Index characterisation of boolean-mask selection. -/
theorem applyMask_eq_filter_range {α : Type} (d : α) (l : List α) (q : List Bool)
    (hlen : q.length = l.length) :
    applyMask l q =
      ((List.range l.length).filter (fun i => q.getD i false)).map (fun i => l.getD i d) := by
  induction l generalizing q with
  | nil => cases q with
    | nil => rfl
    | cons b bs => simp at hlen
  | cons x xs ih =>
    cases q with
    | nil => simp at hlen
    | cons b bs =>
      have hlen' : bs.length = xs.length := by simpa using hlen
      have hrange : List.range (x :: xs).length = 0 :: (List.range xs.length).map (· + 1) := by
        simp [List.range_succ_eq_map]
      rw [hrange]
      have htail :
          ((List.range xs.length).map (· + 1)).filter (fun i => (b :: bs).getD i false) =
            ((List.range xs.length).filter (fun i => bs.getD i false)).map (· + 1) := by
        rw [List.filter_map]
        rfl
      cases b with
      | true =>
        have hstep : applyMask (x :: xs) (true :: bs) = x :: applyMask xs bs := rfl
        have hc : (true :: bs).getD 0 false = true := rfl
        rw [hstep, List.filter_cons, if_pos hc, htail, List.map_cons, List.map_map,
          ih bs hlen']
        rfl
      | false =>
        have hstep : applyMask (x :: xs) (false :: bs) = applyMask xs bs := rfl
        have hc : ¬((false :: bs).getD 0 false = true) := by simp
        rw [hstep, List.filter_cons, if_neg hc, htail, List.map_map, ih bs hlen']
        rfl

/-! ### First-minimum index (model of `np.argmin`) -/

/-- Model of `np.argmin` on a 1-D integer array: the index of the first
occurrence of the minimum value (numpy's documented tie rule). -/
def argminIdx : List ℤ → ℕ
  | [] => 0
  | [_] => 0
  | x :: y :: ys =>
    if x ≤ (y :: ys).getD (argminIdx (y :: ys)) 0 then 0 else argminIdx (y :: ys) + 1

theorem argminIdx_lt_length (l : List ℤ) (hl : l ≠ []) : argminIdx l < l.length := by
  induction l with
  | nil => exact absurd rfl hl
  | cons x xs ih =>
    cases xs with
    | nil => simp [argminIdx]
    | cons y ys =>
      rw [argminIdx]
      by_cases h : x ≤ (y :: ys).getD (argminIdx (y :: ys)) 0
      · rw [if_pos h]; simp
      · rw [if_neg h]
        have := ih (by simp)
        simpa [Nat.succ_lt_succ_iff] using this

theorem argminIdx_le_getD (l : List ℤ) (m : ℕ) (hm : m < l.length) :
    l.getD (argminIdx l) 0 ≤ l.getD m 0 := by
  induction l generalizing m with
  | nil => simp at hm
  | cons x xs ih =>
    cases xs with
    | nil =>
      cases m with
      | zero => simp [argminIdx]
      | succ m' => simp at hm
    | cons y ys =>
      rw [argminIdx]
      by_cases h : x ≤ (y :: ys).getD (argminIdx (y :: ys)) 0
      · rw [if_pos h]
        cases m with
        | zero => simp
        | succ m' =>
          have hm' : m' < (y :: ys).length := by simpa [Nat.succ_lt_succ_iff] using hm
          calc (x :: y :: ys).getD 0 0 = x := rfl
            _ ≤ (y :: ys).getD (argminIdx (y :: ys)) 0 := h
            _ ≤ (y :: ys).getD m' 0 := ih m' hm'
      · rw [if_neg h]
        cases m with
        | zero =>
          have : (y :: ys).getD (argminIdx (y :: ys)) 0 ≤ x := le_of_not_le h
          simpa [List.getD_cons_succ] using this
        | succ m' =>
          have hm' : m' < (y :: ys).length := by simpa [Nat.succ_lt_succ_iff] using hm
          simpa [List.getD_cons_succ] using ih m' hm'

theorem argminIdx_first (l : List ℤ) (m : ℕ) (hm : m < argminIdx l) :
    l.getD (argminIdx l) 0 < l.getD m 0 := by
  induction l generalizing m with
  | nil => simp [argminIdx] at hm
  | cons x xs ih =>
    cases xs with
    | nil => simp [argminIdx] at hm
    | cons y ys =>
      rw [argminIdx] at hm ⊢
      by_cases h : x ≤ (y :: ys).getD (argminIdx (y :: ys)) 0
      · rw [if_pos h] at hm; exact absurd hm (Nat.not_lt_zero m)
      · rw [if_neg h]
        have hlt : (y :: ys).getD (argminIdx (y :: ys)) 0 < x := lt_of_not_le h
        cases m with
        | zero => simpa [List.getD_cons_succ] using hlt
        | succ m' =>
          rw [if_neg h] at hm
          have hm' : m' < argminIdx (y :: ys) := by omega
          simpa [List.getD_cons_succ] using ih m' hm'

/-! ### Preprocessing (`src/preprocessing.py`) -/

/-- X coordinates of a cloud (`points[:, 0]`). -/
def xsOf (pts : List Point) : List ℚ := pts.map (fun p => p.1)

/-- Y coordinates of a cloud (`points[:, 1]`). -/
def ysOf (pts : List Point) : List ℚ := pts.map (fun p => p.2.1)

/-- Z coordinates of a cloud (`points[:, 2]`). -/
def zsOf (pts : List Point) : List ℚ := pts.map (fun p => p.2.2)

/-- `validate_pointcloud` (preprocessing.py:5).  The array-type, `Nx3`-shape and
NaN/Inf checks of the source are enforced statically by the `Point`/`Color`
types of this embedding; the remaining run-time checks are: matching lengths,
every color component in `[0, 1]` (the source tests `np.min(colors) < 0` /
`np.max(colors) > 1`, equivalent to the per-component bound), and a point count
in `[1, 1000000]`. -/
def validate_pointcloud (pts : List Point) (cols : List Color) : Bool :=
  decide (pts.length = cols.length) &&
  cols.all (fun c => decide (0 ≤ c.1 ∧ c.1 ≤ 1 ∧ 0 ≤ c.2.1 ∧ c.2.1 ≤ 1 ∧
    0 ≤ c.2.2 ∧ c.2.2 ≤ 1)) &&
  decide (0 < pts.length) && decide (pts.length ≤ 1000000)

/-- Componentwise difference of two points. -/
def psub (p c : Point) : Point := (p.1 - c.1, p.2.1 - c.2.1, p.2.2 - c.2.2)

/-- Componentwise division of a point by a scalar. -/
def pdivQ (p : Point) (e : ℚ) : Point := (p.1 / e, p.2.1 / e, p.2.2 / e)

/-- The literal `1e-10` used by the degenerate-range guards. -/
def epsRange : ℚ := 1 / 10 ^ 10

/-- `normalize_coordinates` (preprocessing.py:46): bounding-box centre and the
single largest axis extent; pure recentering when that extent is `< 1e-10`,
otherwise recentre and divide by it. -/
def normalize_coordinates (pts : List Point) : List Point :=
  let minv : Point := (npMin (xsOf pts), npMin (ysOf pts), npMin (zsOf pts))
  let maxv : Point := (npMax (xsOf pts), npMax (ysOf pts), npMax (zsOf pts))
  let center : Point :=
    ((minv.1 + maxv.1) / 2, (minv.2.1 + maxv.2.1) / 2, (minv.2.2 + maxv.2.2) / 2)
  let maxRange : ℚ := max (maxv.1 - minv.1) (max (maxv.2.1 - minv.2.1) (maxv.2.2 - minv.2.2))
  if maxRange < epsRange then pts.map (fun p => psub p center)
  else pts.map (fun p => pdivQ (psub p center) maxRange)

/-- `np.mean(points, axis=0)`: the componentwise centroid. -/
def centroid (pts : List Point) : Point :=
  ((xsOf pts).sum / pts.length, (ysOf pts).sum / pts.length, (zsOf pts).sum / pts.length)

/-- `np.linalg.norm(p - m)`: Euclidean distance of a point to the centroid. -/
noncomputable def distToCentroid (p m : Point) : ℝ :=
  Real.sqrt (((p.1 - m.1 : ℚ) : ℝ) ^ 2 + ((p.2.1 - m.2.1 : ℚ) : ℝ) ^ 2 +
    ((p.2.2 - m.2.2 : ℚ) : ℝ) ^ 2)

/-- `np.mean` of a 1-D real array. -/
noncomputable def meanR (l : List ℝ) : ℝ := l.sum / l.length

/-- `np.std` of a 1-D real array (population standard deviation, `ddof = 0`). -/
noncomputable def stdR (l : List ℝ) : ℝ :=
  Real.sqrt (meanR (l.map (fun x => (x - meanR l) ^ 2)))

/-- The boolean mask `distances < mean_distance + threshold * std_distance`
computed by `filter_outliers` (preprocessing.py:96). -/
noncomputable def outlierMask (pts : List Point) (threshold : ℚ) : List Bool :=
  let m := centroid pts
  let distances := pts.map (fun p => distToCentroid p m)
  let cutoff : ℝ := meanR distances + (threshold : ℝ) * stdR distances
  distances.map (fun d => decide (d < cutoff))

/-- `filter_outliers` (preprocessing.py:75): keep the points strictly inside
`mean + threshold * std` of the centroid distance, colors by the same mask. -/
noncomputable def filter_outliers (pts : List Point) (cols : List Color) (threshold : ℚ) :
    List Point × List Color :=
  (applyMask pts (outlierMask pts threshold), applyMask cols (outlierMask pts threshold))

/-! ### Feature extraction (`src/feature_extraction.py`) -/

/-- `astype(np.int32)`: float-to-integer conversion truncating toward zero. -/
def qtrunc (q : ℚ) : ℤ := if q < 0 then ⌈q⌉ else ⌊q⌋

/-- `np.clip(·, 0, img_size - 1)` with `img_size = 512`. -/
def clipPix (z : ℤ) : ℤ := max 0 (min 511 z)

/-- The per-axis XY extents `max_vals - min_vals` (feature_extraction.py:25). -/
def xyRanges (pts : List Point) : ℚ × ℚ :=
  (npMax (xsOf pts) - npMin (xsOf pts), npMax (ysOf pts) - npMin (ysOf pts))

/-- The ranges actually used by the pixel mapping: the source replaces the
whole vector by ones when `np.any(range_vals < 1e-10)`
(feature_extraction.py:28). -/
def rangeUsed (pts : List Point) : ℚ × ℚ :=
  let rv := xyRanges pts
  if rv.1 < epsRange ∨ rv.2 < epsRange then (1, 1) else rv

/-- `img_coords` (feature_extraction.py:33): affine map of XY into pixel space,
truncated to integers and clipped into `[0, 511]`. -/
def imgCoords (pts : List Point) : List (ℤ × ℤ) :=
  let mnx := npMin (xsOf pts)
  let mny := npMin (ysOf pts)
  let ru := rangeUsed pts
  pts.map (fun p =>
    (clipPix (qtrunc ((p.1 - mnx) / ru.1 * 511)), clipPix (qtrunc ((p.2.1 - mny) / ru.2 * 511))))

/-- Per-point intensity byte (feature_extraction.py:39): Z mapped affinely into
`[0, 255]`, or the constant 128 when the Z extent is degenerate. -/
def intensityList (pts : List Point) : List ℕ :=
  let minz := npMin (zsOf pts)
  let maxz := npMax (zsOf pts)
  if maxz - minz > epsRange then
    pts.map (fun p => (qtrunc ((p.2.2 - minz) / (maxz - minz) * 255)).toNat)
  else
    pts.map (fun _ => 128)

/-- A 512x512 single-channel image, as intensity at `(row, col)`. -/
abbrev Raster : Type := ℤ × ℤ → ℕ

/-- `depth_img` (feature_extraction.py:47): paint each point's intensity at
`depth_img[y, x]`; later writes overwrite earlier ones. -/
def buildRaster (pts : List Point) : Raster :=
  ((imgCoords pts).zip (intensityList pts)).foldl
    (fun img ci => fun q => if q = (ci.1.2, ci.1.1) then ci.2 else img q)
    (fun _ => 0)

/-- Squared pixel-space Euclidean distance (feature_extraction.py:67). -/
def pixSqDist (c t : ℤ × ℤ) : ℤ := (c.1 - t.1) ^ 2 + (c.2 - t.2) ^ 2

/-- `int(kp.pt[0]), int(kp.pt[1])` (feature_extraction.py:66): the detected
(sub-pixel) location truncated componentwise to integers. -/
def truncPt (q : ℚ × ℚ) : ℤ × ℤ := (qtrunc q.1, qtrunc q.2)

/-- Backprojection of one detected 2D location (feature_extraction.py:64):
`points[np.argmin(distances)]` where the distances are squared pixel distances
to the truncated detection. -/
def backproject (pts : List Point) (coords : List (ℤ × ℤ)) (kp : ℚ × ℚ) : Point :=
  pts.getD (argminIdx (coords.map (fun c => pixSqDist c (truncPt kp)))) (0, 0, 0)

/-- `extract_sift_features` (feature_extraction.py:7).  The external
capabilities are abstract parameters: `gauss` models `cv2.GaussianBlur` and
`detect` models `cv2.SIFT_create().detectAndCompute`, returning the list of
detected sub-pixel locations `kp.pt` and the descriptor rows.  The `colors`
argument is accepted and never read, exactly as in the source. -/
def extract_sift_features (gauss : Raster → Raster)
    (detect : Raster → List (ℚ × ℚ) × List (List ℚ))
    (points : List Point) (colors : List Color) : List Point × List (List ℚ) :=
  let coords := imgCoords points
  let kd := detect (gauss (buildRaster points))
  if kd.1 = [] then ([], [])
  else (kd.1.map (fun kp => backproject points coords kp), kd.2)

/-- `np.linalg.norm` of one descriptor row. -/
noncomputable def descriptorNorm (d : List ℚ) : ℝ :=
  Real.sqrt ((d.map (fun x => ((x : ℝ)) ^ 2)).sum)

/-- `np.max` of a 1-D real array (`0` as junk value for `[]`). -/
noncomputable def npMaxR : List ℝ → ℝ
  | [] => 0
  | x :: xs => xs.foldl max x

/-- `filter_features_by_quality` (feature_extraction.py:135): normalise the
descriptor norms by their maximum plus `1e-10` and keep the entries whose
score strictly exceeds the threshold. -/
noncomputable def filter_features_by_quality (kps : List Point) (descs : List (List ℚ))
    (quality_threshold : ℚ) : List Point × List (List ℚ) :=
  if descs.length = 0 then (kps, descs)
  else
    let norms := descs.map descriptorNorm
    let mask := norms.map (fun x => decide ((quality_threshold : ℝ) < x / (npMaxR norms + (epsRange : ℝ))))
    (applyMask kps mask, applyMask descs mask)

/-- The comparison underlying a stable ascending `np.argsort` of the norm
array: compare by value, breaking ties by original index. -/
def argLe (norms : List ℝ) (i j : ℕ) : Prop :=
  norms.getD i 0 < norms.getD j 0 ∨ (norms.getD i 0 = norms.getD j 0 ∧ i ≤ j)

noncomputable instance argLeDecidable (norms : List ℝ) : DecidableRel (argLe norms) :=
  fun i j => by unfold argLe; infer_instance

/-- `np.argsort(descriptor_norms)` (feature_extraction.py:177): the ascending
argsort, modelled as the unique permutation of the index range sorted by
`(value, index)`; for equal values numpy's sort leaves the original index
order, which is exactly the `(value, index)` order. -/
noncomputable def argsortAsc (norms : List ℝ) (n : ℕ) : List ℕ :=
  List.insertionSort (argLe norms) (List.range n)

/-- `limit_feature_count` (feature_extraction.py:160): identity when the count
is within `max_count`, otherwise keep the `max_count` entries of largest
descriptor norm, in the order of the reversed ascending argsort. -/
noncomputable def limit_feature_count (kps : List Point) (descs : List (List ℚ))
    (max_count : ℕ) : List Point × List (List ℚ) :=
  if kps.length ≤ max_count then (kps, descs)
  else
    let norms := descs.map descriptorNorm
    let selected := ((argsortAsc norms descs.length).reverse).take max_count
    (selected.map (fun i => kps.getD i (0, 0, 0)), selected.map (fun i => descs.getD i []))

/-! ### Pipeline orchestration (`src/main.py`) -/

/-- The failure kinds that can propagate through the pipeline. -/
inductive PErr : Type
  | loadFail
  | invalidCloud
  | preprocFail
  | extractFail
  | saveFail
  | visFail
  deriving DecidableEq

/-- The dict returned by `process_pointcloud` (main.py:99). -/
structure PCResult : Type where
  original_points : List Point
  original_colors : List Color
  filtered_points : List Point
  filtered_colors : List Color
  normalized_points : List Point
  keypoints : List Point
  descriptors : List (List ℚ)
  deriving Inhabited

/-- `process_pointcloud` (main.py:48).  `loadRes` models the outcome of
`load_ply_file`; a raised exception is an `Except.error`.  `extractStep`
models the feature-extraction block (main.py:88-92,
`extract_sift_features` followed by `limit_feature_count`), which can raise
because the detector is external; its failure is caught locally and replaced
by empty arrays (main.py:94-97).  A validation failure raises `ValueError`
(main.py:69-71); preprocessing failures re-raise (main.py:82-84), which is the
same as not being caught. -/
noncomputable def process_pointcloud
    (loadRes : Except PErr (List Point × List Color))
    (extractStep : List Point → List Color → Except PErr (List Point × List (List ℚ))) :
    Except PErr PCResult :=
  match loadRes with
  | .error e => .error e
  | .ok pc =>
    if validate_pointcloud pc.1 pc.2 then
      let fc := filter_outliers pc.1 pc.2 2
      let npts := normalize_coordinates fc.1
      let feats :=
        match extractStep npts fc.2 with
        | .ok f => f
        | .error _ => ([], [])
      .ok ⟨pc.1, pc.2, fc.1, fc.2, npts, feats.1, feats.2⟩
    else .error .invalidCloud

/-- `main` (main.py:110).  Processes the left camera, then the right camera;
`save_features` failures are caught and logged (main.py:130-140) and
visualization failures are caught and logged (main.py:143-174), so their
outcomes (`saveRes`, `visRes`) never affect the run; any exception escaping
`process_pointcloud` reaches the outer handler (main.py:182-184), which logs
and re-raises, i.e. the error propagates out of the run. -/
noncomputable def mainRun
    (loadLeft loadRight : Except PErr (List Point × List Color))
    (extractStep : List Point → List Color → Except PErr (List Point × List (List ℚ)))
    (saveRes visRes : Except PErr Unit) :
    Except PErr (PCResult × PCResult) :=
  match process_pointcloud loadLeft extractStep with
  | .error e => .error e
  | .ok l =>
    match process_pointcloud loadRight extractStep with
    | .error e => .error e
    | .ok r =>
      match saveRes, visRes with
      | _, _ => .ok (l, r)

/-! ### Claim C10 -/

/-- C10: the output of `extract_sift_features` is independent of its `colors`
argument — for a fixed blur, detector and point list, any two color arrays
give identical keypoints and descriptors, because the raster and the
backprojection depend only on the positions. -/
theorem c10_extract_independent_of_colors (gauss : Raster → Raster)
    (detect : Raster → List (ℚ × ℚ) × List (List ℚ))
    (pts : List Point) (cols1 cols2 : List Color) :
    extract_sift_features gauss detect pts cols1 =
      extract_sift_features gauss detect pts cols2 := rfl

/-! ### Claim C2 -/

/-- Modelled from the wording of claim C2 (not from the source): replace only
a degenerate axis's range by 1, keeping the other axis's true extent.  Used
solely to exhibit the divergence from the source's `np.any` behaviour. -/
def rangeUsedPerAxis (pts : List Point) : ℚ × ℚ :=
  let rv := xyRanges pts
  (if rv.1 < epsRange then 1 else rv.1, if rv.2 < epsRange then 1 else rv.2)

/-- Modelled from the wording of claim C2 (not from the source): the pixel
mapping that claim C2 describes, with per-axis degenerate-range replacement. -/
def imgCoordsPerAxis (pts : List Point) : List (ℤ × ℤ) :=
  let mnx := npMin (xsOf pts)
  let mny := npMin (ysOf pts)
  let ru := rangeUsedPerAxis pts
  pts.map (fun p =>
    (clipPix (qtrunc ((p.1 - mnx) / ru.1 * 511)), clipPix (qtrunc ((p.2.1 - mny) / ru.2 * 511))))

/-- C2 counterexample: on the cloud `[(0,0,0), (0,1,0), (0,2,0)]` the X extent
is degenerate (0) while the Y extent is 2, yet the source replaces BOTH ranges
by 1, so the non-degenerate Y axis does not keep its true extent: the pixel
mapping places the middle point at row 511 instead of the claim's 255. -/
theorem c2_counterexample :
    xyRanges [((0:ℚ), (0:ℚ), (0:ℚ)), (0, 1, 0), (0, 2, 0)] = (0, 2) ∧
    (0 : ℚ) < epsRange ∧ ¬((2 : ℚ) < epsRange) ∧
    rangeUsed [((0:ℚ), (0:ℚ), (0:ℚ)), (0, 1, 0), (0, 2, 0)] = (1, 1) ∧
    imgCoords [((0:ℚ), (0:ℚ), (0:ℚ)), (0, 1, 0), (0, 2, 0)] =
      [(0, 0), (0, 511), (0, 511)] ∧
    imgCoordsPerAxis [((0:ℚ), (0:ℚ), (0:ℚ)), (0, 1, 0), (0, 2, 0)] =
      [(0, 0), (0, 255), (0, 511)] := by
  have hxy : xyRanges [((0:ℚ), (0:ℚ), (0:ℚ)), (0, 1, 0), (0, 2, 0)] = (0, 2) := by
    norm_num [xyRanges, npMax, npMin, xsOf, ysOf]
  have hr : rangeUsed [((0:ℚ), (0:ℚ), (0:ℚ)), (0, 1, 0), (0, 2, 0)] = (1, 1) := by
    rw [rangeUsed]
    norm_num [xyRanges, npMax, npMin, xsOf, ysOf, epsRange]
  have hrs : rangeUsedPerAxis [((0:ℚ), (0:ℚ), (0:ℚ)), (0, 1, 0), (0, 2, 0)] = (1, 2) := by
    rw [rangeUsedPerAxis]
    norm_num [xyRanges, npMax, npMin, xsOf, ysOf, epsRange]
  refine ⟨hxy, by norm_num [epsRange], by norm_num [epsRange], hr, ?_, ?_⟩
  · rw [imgCoords, hr]
    norm_num [npMin, xsOf, ysOf, qtrunc, clipPix]
  · rw [imgCoordsPerAxis, hrs]
    norm_num [npMin, xsOf, ysOf, qtrunc, clipPix]

/-- C2 (amended): if the X extent or the Y extent is below `1e-10`, the source
replaces BOTH axes' ranges by 1 in the affine pixel mapping (`np.any` guard),
so a non-degenerate axis does not keep its true extent; only when neither
extent is degenerate are the true extents used. -/
theorem c2_rangeUsed_both_axes (pts : List Point) :
    ((xyRanges pts).1 < epsRange ∨ (xyRanges pts).2 < epsRange →
      rangeUsed pts = (1, 1)) ∧
    (¬((xyRanges pts).1 < epsRange ∨ (xyRanges pts).2 < epsRange) →
      rangeUsed pts = xyRanges pts) := by
  constructor
  · intro h
    unfold rangeUsed
    rw [if_pos h]
  · intro h
    unfold rangeUsed
    rw [if_neg h]

/-- C2 witness: a concrete degenerate-X cloud on which the amended claim's
hypothesis holds and both ranges are replaced by 1. -/
theorem c2_rangeUsed_both_axes_witness :
    ((xyRanges [((0:ℚ), (0:ℚ), (0:ℚ)), (0, 1, 0), (0, 2, 0)]).1 < epsRange ∨
      (xyRanges [((0:ℚ), (0:ℚ), (0:ℚ)), (0, 1, 0), (0, 2, 0)]).2 < epsRange) ∧
    rangeUsed [((0:ℚ), (0:ℚ), (0:ℚ)), (0, 1, 0), (0, 2, 0)] = (1, 1) :=
  ⟨Or.inl (by norm_num [xyRanges, npMax, npMin, xsOf, epsRange]),
    (c2_rangeUsed_both_axes [((0:ℚ), (0:ℚ), (0:ℚ)), (0, 1, 0), (0, 2, 0)]).1
      (Or.inl (by norm_num [xyRanges, npMax, npMin, xsOf, epsRange]))⟩

/-! ### Claim C1 -/

theorem imgCoords_length (pts : List Point) : (imgCoords pts).length = pts.length := by
  simp [imgCoords]

/-- Characterisation of one backprojection step: the chosen index is in range,
realises the minimum squared pixel distance to the truncated detection, and is
the first index doing so. -/
theorem backproject_spec (pts : List Point) (hne : pts ≠ []) (kp : ℚ × ℚ) :
    ∃ i : ℕ, i < pts.length ∧
      backproject pts (imgCoords pts) kp = pts.getD i (0, 0, 0) ∧
      (∀ m : ℕ, m < pts.length →
        pixSqDist ((imgCoords pts).getD i (0, 0)) (truncPt kp) ≤
          pixSqDist ((imgCoords pts).getD m (0, 0)) (truncPt kp)) ∧
      (∀ m : ℕ, m < i →
        pixSqDist ((imgCoords pts).getD i (0, 0)) (truncPt kp) <
          pixSqDist ((imgCoords pts).getD m (0, 0)) (truncPt kp)) := by
  set coords := imgCoords pts with hcoords
  set dl := coords.map (fun c => pixSqDist c (truncPt kp)) with hdl
  have hclen : coords.length = pts.length := imgCoords_length pts
  have hdlen : dl.length = pts.length := by
    rw [hdl, List.length_map, hclen]
  have hdlne : dl ≠ [] := by
    intro h
    apply hne
    have : dl.length = 0 := by rw [h]; rfl
    rw [hdlen] at this
    exact List.length_eq_zero.mp this
  have hgetdl : ∀ m : ℕ, m < pts.length →
      dl.getD m 0 = pixSqDist (coords.getD m (0, 0)) (truncPt kp) := by
    intro m hm
    have hm' : m < dl.length := by rw [hdlen]; exact hm
    have hmc : m < coords.length := by rw [hclen]; exact hm
    rw [List.getD_eq_getElem _ _ hm', List.getD_eq_getElem _ _ hmc]
    simp [hdl]
  refine ⟨argminIdx dl, ?_, rfl, ?_, ?_⟩
  · have := argminIdx_lt_length dl hdlne
    rw [hdlen] at this
    exact this
  · intro m hm
    have h1 := argminIdx_le_getD dl m (by rw [hdlen]; exact hm)
    have hi : argminIdx dl < pts.length := by
      have := argminIdx_lt_length dl hdlne
      rwa [hdlen] at this
    rwa [hgetdl m hm, hgetdl (argminIdx dl) hi] at h1
  · intro m hm
    have h1 := argminIdx_first dl m hm
    have hi : argminIdx dl < pts.length := by
      have := argminIdx_lt_length dl hdlne
      rwa [hdlen] at this
    have hmlt : m < pts.length := lt_trans hm hi
    rwa [hgetdl m hmlt, hgetdl (argminIdx dl) hi] at h1

/-- C1 (amended): for every detected 2D location, the backprojected keypoint
returned by `extract_sift_features` is the full 3D position of the
source-cloud point whose mapped pixel coordinate minimizes squared Euclidean
pixel distance to the componentwise integer-truncated detected location
(`int(kp.pt[0]), int(kp.pt[1])`), with ties broken by the first-encountered
index in the cloud's original order; consequently every returned keypoint
equals, by value, some position present in the input cloud. -/
theorem c1_backprojection_to_truncated (gauss : Raster → Raster)
    (detect : Raster → List (ℚ × ℚ) × List (List ℚ))
    (pts : List Point) (cols : List Color) (hne : pts ≠ []) :
    (∀ kp ∈ (extract_sift_features gauss detect pts cols).1, kp ∈ pts) ∧
    (∀ j : ℕ, j < (detect (gauss (buildRaster pts))).1.length →
      ∃ i : ℕ, i < pts.length ∧
        (extract_sift_features gauss detect pts cols).1.getD j (0, 0, 0) =
          pts.getD i (0, 0, 0) ∧
        (∀ m : ℕ, m < pts.length →
          pixSqDist ((imgCoords pts).getD i (0, 0))
              (truncPt ((detect (gauss (buildRaster pts))).1.getD j (0, 0))) ≤
            pixSqDist ((imgCoords pts).getD m (0, 0))
              (truncPt ((detect (gauss (buildRaster pts))).1.getD j (0, 0)))) ∧
        (∀ m : ℕ, m < i →
          pixSqDist ((imgCoords pts).getD i (0, 0))
              (truncPt ((detect (gauss (buildRaster pts))).1.getD j (0, 0))) <
            pixSqDist ((imgCoords pts).getD m (0, 0))
              (truncPt ((detect (gauss (buildRaster pts))).1.getD j (0, 0))))) := by
  set dets := (detect (gauss (buildRaster pts))).1 with hdets
  by_cases hd : dets = []
  · constructor
    · intro kp hkp
      rw [extract_sift_features] at hkp
      simp only [← hdets, hd, if_pos rfl] at hkp
      cases hkp
    · intro j hj
      rw [hd] at hj
      simp at hj
  · have hout : (extract_sift_features gauss detect pts cols).1 =
        dets.map (fun kp => backproject pts (imgCoords pts) kp) := by
      rw [extract_sift_features]
      simp only [← hdets, if_neg hd]
    constructor
    · intro kp hkp
      rw [hout] at hkp
      rcases List.mem_map.mp hkp with ⟨kp', _, hkp'⟩
      rcases backproject_spec pts hne kp' with ⟨i, hi, hbp, -, -⟩
      rw [← hkp', hbp, List.getD_eq_getElem _ _ hi]
      exact List.getElem_mem hi
    · intro j hj
      rcases backproject_spec pts hne (dets.getD j (0, 0)) with ⟨i, hi, hbp, hmin, hfirst⟩
      refine ⟨i, hi, ?_, hmin, hfirst⟩
      rw [hout]
      have hjlen : j < (dets.map (fun kp => backproject pts (imgCoords pts) kp)).length := by
        rw [List.length_map]
        exact hj
      rw [List.getD_eq_getElem _ _ hjlen, List.getElem_map, ← List.getD_eq_getElem dets _ hj]
      exact hbp

/-- Squared pixel distance to a sub-pixel (rational) location.  Used only to
state claim C1's "squared Euclidean distance in pixel space to the detected
location" for a sub-pixel detection. -/
def pixSqDistQ (c : ℤ × ℤ) (t : ℚ × ℚ) : ℚ :=
  ((c.1 : ℚ) - t.1) ^ 2 + ((c.2 : ℚ) - t.2) ^ 2

/-- C1 counterexample: with the detector reporting the sub-pixel location
`(0.9, 0)`, the source truncates it to `(0, 0)` before the nearest-pixel
search and returns the cloud point mapped to pixel `(0, 0)`, although the
(distinct) cloud point mapped to pixel `(1, 0)` is strictly closer to the
detected location itself — so the returned keypoint is NOT the minimizer of
pixel distance to the detected location. -/
theorem c1_counterexample :
    (extract_sift_features id (fun _ => ([((9:ℚ)/10, (0:ℚ))], [[1]]))
        [((0:ℚ), (0:ℚ), (0:ℚ)), (1/511, 0, 0), (1, 0, 0)] []).1 =
      [((0:ℚ), (0:ℚ), (0:ℚ))] ∧
    imgCoords [((0:ℚ), (0:ℚ), (0:ℚ)), (1/511, 0, 0), (1, 0, 0)] =
      [(0, 0), (1, 0), (511, 0)] ∧
    pixSqDistQ (1, 0) ((9:ℚ)/10, (0:ℚ)) < pixSqDistQ (0, 0) ((9:ℚ)/10, (0:ℚ)) ∧
    ((1:ℚ)/511, (0:ℚ), (0:ℚ)) ≠ ((0:ℚ), (0:ℚ), (0:ℚ)) := by
  have hcoords : imgCoords [((0:ℚ), (0:ℚ), (0:ℚ)), (1/511, 0, 0), (1, 0, 0)] =
      [(0, 0), (1, 0), (511, 0)] := by
    have hr : rangeUsed [((0:ℚ), (0:ℚ), (0:ℚ)), (1/511, 0, 0), (1, 0, 0)] = (1, 1) := by
      rw [rangeUsed]
      norm_num [xyRanges, npMax, npMin, xsOf, ysOf, epsRange]
    rw [imgCoords, hr]
    norm_num [npMin, xsOf, ysOf, qtrunc, clipPix]
  have ht : truncPt ((9:ℚ)/10, (0:ℚ)) = (0, 0) := by
    norm_num [truncPt, qtrunc]
  refine ⟨?_, hcoords, by norm_num [pixSqDistQ], by norm_num⟩
  have h1 : (extract_sift_features id (fun _ => ([((9:ℚ)/10, (0:ℚ))], [[1]]))
      [((0:ℚ), (0:ℚ), (0:ℚ)), (1/511, 0, 0), (1, 0, 0)] []).1 =
      [backproject [((0:ℚ), (0:ℚ), (0:ℚ)), (1/511, 0, 0), (1, 0, 0)]
        (imgCoords [((0:ℚ), (0:ℚ), (0:ℚ)), (1/511, 0, 0), (1, 0, 0)]) ((9:ℚ)/10, (0:ℚ))] := by
    rw [extract_sift_features]
    simp
  rw [h1, backproject, hcoords, ht]
  have hdl : ([((0:ℤ), (0:ℤ)), (1, 0), (511, 0)].map (fun c => pixSqDist c (0, 0))) =
      [0, 1, 261121] := by
    simp [pixSqDist]
  rw [hdl]
  have harg : argminIdx [(0:ℤ), 1, 261121] = 0 := by decide
  rw [harg]
  rfl

/-- Concrete three-point cloud used to witness the backprojection theorem. -/
def cloudA : List Point := [(0, 0, 0), (1/511, 0, 0), (1, 0, 0)]

/-- Concrete detector reporting one sub-pixel location. -/
def detA : Raster → List (ℚ × ℚ) × List (List ℚ) := fun _ => ([(9/10, 0)], [[1]])

/-- C1 witness: the backprojection theorem instantiated on `cloudA` with the
one-detection detector `detA`. -/
theorem c1_backprojection_to_truncated_witness :
    cloudA ≠ [] ∧
    ((∀ kp ∈ (extract_sift_features id detA cloudA []).1, kp ∈ cloudA) ∧
      (∀ j : ℕ, j < (detA (id (buildRaster cloudA))).1.length →
        ∃ i : ℕ, i < cloudA.length ∧
          (extract_sift_features id detA cloudA []).1.getD j (0, 0, 0) =
            cloudA.getD i (0, 0, 0) ∧
          (∀ m : ℕ, m < cloudA.length →
            pixSqDist ((imgCoords cloudA).getD i (0, 0))
                (truncPt ((detA (id (buildRaster cloudA))).1.getD j (0, 0))) ≤
              pixSqDist ((imgCoords cloudA).getD m (0, 0))
                (truncPt ((detA (id (buildRaster cloudA))).1.getD j (0, 0)))) ∧
          (∀ m : ℕ, m < i →
            pixSqDist ((imgCoords cloudA).getD i (0, 0))
                (truncPt ((detA (id (buildRaster cloudA))).1.getD j (0, 0))) <
              pixSqDist ((imgCoords cloudA).getD m (0, 0))
                (truncPt ((detA (id (buildRaster cloudA))).1.getD j (0, 0)))))) :=
  ⟨by simp [cloudA],
    c1_backprojection_to_truncated id detA cloudA [] (by simp [cloudA])⟩

/-! ### Claim C5 -/

theorem min_shift (c a b : ℚ) : min a b - c = min (a - c) (b - c) := by
  rcases le_total a b with h | h
  · rw [min_eq_left h, min_eq_left (by linarith)]
  · rw [min_eq_right h, min_eq_right (by linarith)]

theorem max_shift (c a b : ℚ) : max a b - c = max (a - c) (b - c) := by
  rcases le_total a b with h | h
  · rw [max_eq_right h, max_eq_right (by linarith)]
  · rw [max_eq_left h, max_eq_left (by linarith)]

theorem min_scale (e a b : ℚ) (he : 0 < e) : min a b / e = min (a / e) (b / e) := by
  rcases le_total a b with h | h
  · rw [min_eq_left h, min_eq_left ((div_le_div_right he).mpr h)]
  · rw [min_eq_right h, min_eq_right ((div_le_div_right he).mpr h)]

theorem max_scale (e a b : ℚ) (he : 0 < e) : max a b / e = max (a / e) (b / e) := by
  rcases le_total a b with h | h
  · rw [max_eq_right h, max_eq_right ((div_le_div_right he).mpr h)]
  · rw [max_eq_left h, max_eq_left ((div_le_div_right he).mpr h)]

theorem xsOf_map_psub (pts : List Point) (c : Point) :
    xsOf (pts.map (fun p => psub p c)) = (xsOf pts).map (fun x => x - c.1) := by
  simp [xsOf, psub, List.map_map]

theorem ysOf_map_psub (pts : List Point) (c : Point) :
    ysOf (pts.map (fun p => psub p c)) = (ysOf pts).map (fun x => x - c.2.1) := by
  simp [ysOf, psub, List.map_map]

theorem zsOf_map_psub (pts : List Point) (c : Point) :
    zsOf (pts.map (fun p => psub p c)) = (zsOf pts).map (fun x => x - c.2.2) := by
  simp [zsOf, psub, List.map_map]

theorem xsOf_map_pdiv (pts : List Point) (c : Point) (e : ℚ) :
    xsOf (pts.map (fun p => pdivQ (psub p c) e)) =
      (xsOf pts).map (fun x => (x - c.1) / e) := by
  simp [xsOf, psub, pdivQ, List.map_map]

theorem ysOf_map_pdiv (pts : List Point) (c : Point) (e : ℚ) :
    ysOf (pts.map (fun p => pdivQ (psub p c) e)) =
      (ysOf pts).map (fun x => (x - c.2.1) / e) := by
  simp [ysOf, psub, pdivQ, List.map_map]

theorem zsOf_map_pdiv (pts : List Point) (c : Point) (e : ℚ) :
    zsOf (pts.map (fun p => pdivQ (psub p c) e)) =
      (zsOf pts).map (fun x => (x - c.2.2) / e) := by
  simp [zsOf, psub, pdivQ, List.map_map]

theorem xsOf_ne_nil (pts : List Point) (hne : pts ≠ []) : xsOf pts ≠ [] := by
  intro h
  apply hne
  have := congrArg List.length h
  simp [xsOf] at this
  exact List.length_eq_zero.mp (by simp [this])

theorem ysOf_ne_nil (pts : List Point) (hne : pts ≠ []) : ysOf pts ≠ [] := by
  intro h
  apply hne
  have := congrArg List.length h
  simp [ysOf] at this
  exact List.length_eq_zero.mp (by simp [this])

theorem zsOf_ne_nil (pts : List Point) (hne : pts ≠ []) : zsOf pts ≠ [] := by
  intro h
  apply hne
  have := congrArg List.length h
  simp [zsOf] at this
  exact List.length_eq_zero.mp (by simp [this])

theorem npMin_shift (l : List ℚ) (hl : l ≠ []) (c : ℚ) :
    npMin (l.map (fun x => x - c)) = npMin l - c :=
  npMin_map (fun x => x - c) (fun a b => min_shift c a b) l hl

theorem npMax_shift (l : List ℚ) (hl : l ≠ []) (c : ℚ) :
    npMax (l.map (fun x => x - c)) = npMax l - c :=
  npMax_map (fun x => x - c) (fun a b => max_shift c a b) l hl

theorem npMin_shift_scale (l : List ℚ) (hl : l ≠ []) (c e : ℚ) (he : 0 < e) :
    npMin (l.map (fun x => (x - c) / e)) = (npMin l - c) / e := by
  refine npMin_map (fun x => (x - c) / e) (fun a b => ?_) l hl
  show (min a b - c) / e = min ((a - c) / e) ((b - c) / e)
  rw [min_shift c a b, min_scale e (a - c) (b - c) he]

theorem npMax_shift_scale (l : List ℚ) (hl : l ≠ []) (c e : ℚ) (he : 0 < e) :
    npMax (l.map (fun x => (x - c) / e)) = (npMax l - c) / e := by
  refine npMax_map (fun x => (x - c) / e) (fun a b => ?_) l hl
  show (max a b - c) / e = max ((a - c) / e) ((b - c) / e)
  rw [max_shift c a b, max_scale e (a - c) (b - c) he]

/-- C5: for every non-empty cloud, `normalize_coordinates` computes
`center = (min + max) / 2` per axis and `extent` as the largest axis range;
below extent `1e-10` the output is the positions minus the centre (pure
recentering), otherwise `(position - center) / extent`; in all cases the
centre of the output's bounding box is exactly the origin and every output
axis range is at most 2. -/
theorem c5_normalize_coordinates (pts : List Point) (hne : pts ≠ []) :
    (normalize_coordinates pts =
      if max (npMax (xsOf pts) - npMin (xsOf pts))
          (max (npMax (ysOf pts) - npMin (ysOf pts)) (npMax (zsOf pts) - npMin (zsOf pts))) <
          epsRange then
        pts.map (fun p => psub p ((npMin (xsOf pts) + npMax (xsOf pts)) / 2,
          (npMin (ysOf pts) + npMax (ysOf pts)) / 2,
          (npMin (zsOf pts) + npMax (zsOf pts)) / 2))
      else
        pts.map (fun p => pdivQ (psub p ((npMin (xsOf pts) + npMax (xsOf pts)) / 2,
          (npMin (ysOf pts) + npMax (ysOf pts)) / 2,
          (npMin (zsOf pts) + npMax (zsOf pts)) / 2))
          (max (npMax (xsOf pts) - npMin (xsOf pts))
            (max (npMax (ysOf pts) - npMin (ysOf pts))
              (npMax (zsOf pts) - npMin (zsOf pts)))))) ∧
    (npMin (xsOf (normalize_coordinates pts)) + npMax (xsOf (normalize_coordinates pts))) / 2
      = 0 ∧
    (npMin (ysOf (normalize_coordinates pts)) + npMax (ysOf (normalize_coordinates pts))) / 2
      = 0 ∧
    (npMin (zsOf (normalize_coordinates pts)) + npMax (zsOf (normalize_coordinates pts))) / 2
      = 0 ∧
    npMax (xsOf (normalize_coordinates pts)) - npMin (xsOf (normalize_coordinates pts)) ≤ 2 ∧
    npMax (ysOf (normalize_coordinates pts)) - npMin (ysOf (normalize_coordinates pts)) ≤ 2 ∧
    npMax (zsOf (normalize_coordinates pts)) - npMin (zsOf (normalize_coordinates pts)) ≤ 2 := by
  have hxne := xsOf_ne_nil pts hne
  have hyne := ysOf_ne_nil pts hne
  have hzne := zsOf_ne_nil pts hne
  have heps2 : epsRange < 2 := by norm_num [epsRange]
  have hepspos : (0 : ℚ) < epsRange := by norm_num [epsRange]
  refine ⟨rfl, ?_⟩
  set mnx := npMin (xsOf pts) with hmnx
  set mxx := npMax (xsOf pts) with hmxx
  set mny := npMin (ysOf pts) with hmny
  set mxy := npMax (ysOf pts) with hmxy
  set mnz := npMin (zsOf pts) with hmnz
  set mxz := npMax (zsOf pts) with hmxz
  set e := max (mxx - mnx) (max (mxy - mny) (mxz - mnz)) with he_def
  set c : Point := ((mnx + mxx) / 2, (mny + mxy) / 2, (mnz + mxz) / 2) with hc_def
  have hex : mxx - mnx ≤ e := le_max_left _ _
  have hey : mxy - mny ≤ e := le_trans (le_max_left _ _) (le_max_right _ _)
  have hez : mxz - mnz ≤ e := le_trans (le_max_right _ _) (le_max_right _ _)
  by_cases hdeg : e < epsRange
  · have hout : normalize_coordinates pts = pts.map (fun p => psub p c) := by
      rw [normalize_coordinates]
      simp only [← hmnx, ← hmxx, ← hmny, ← hmxy, ← hmnz, ← hmxz, ← he_def, ← hc_def]
      rw [if_pos hdeg]
    have hx : xsOf (normalize_coordinates pts) = (xsOf pts).map (fun x => x - c.1) := by
      rw [hout]; exact xsOf_map_psub pts c
    have hy : ysOf (normalize_coordinates pts) = (ysOf pts).map (fun x => x - c.2.1) := by
      rw [hout]; exact ysOf_map_psub pts c
    have hz : zsOf (normalize_coordinates pts) = (zsOf pts).map (fun x => x - c.2.2) := by
      rw [hout]; exact zsOf_map_psub pts c
    rw [hx, hy, hz, npMin_shift _ hxne, npMax_shift _ hxne, npMin_shift _ hyne,
      npMax_shift _ hyne, npMin_shift _ hzne, npMax_shift _ hzne]
    have hc1 : c.1 = (mnx + mxx) / 2 := by rw [hc_def]
    have hc2 : c.2.1 = (mny + mxy) / 2 := by rw [hc_def]
    have hc3 : c.2.2 = (mnz + mxz) / 2 := by rw [hc_def]
    rw [hc1, hc2, hc3]
    refine ⟨by ring, by ring, by ring, ?_, ?_, ?_⟩ <;>
      · ring_nf
        linarith
  · have hepos : 0 < e := lt_of_lt_of_le hepspos (le_of_not_lt hdeg)
    have hout : normalize_coordinates pts = pts.map (fun p => pdivQ (psub p c) e) := by
      rw [normalize_coordinates]
      simp only [← hmnx, ← hmxx, ← hmny, ← hmxy, ← hmnz, ← hmxz, ← he_def, ← hc_def]
      rw [if_neg hdeg]
    have hx : xsOf (normalize_coordinates pts) = (xsOf pts).map (fun x => (x - c.1) / e) := by
      rw [hout]; exact xsOf_map_pdiv pts c e
    have hy : ysOf (normalize_coordinates pts) =
        (ysOf pts).map (fun x => (x - c.2.1) / e) := by
      rw [hout]; exact ysOf_map_pdiv pts c e
    have hz : zsOf (normalize_coordinates pts) =
        (zsOf pts).map (fun x => (x - c.2.2) / e) := by
      rw [hout]; exact zsOf_map_pdiv pts c e
    rw [hx, hy, hz, npMin_shift_scale _ hxne _ _ hepos, npMax_shift_scale _ hxne _ _ hepos,
      npMin_shift_scale _ hyne _ _ hepos, npMax_shift_scale _ hyne _ _ hepos,
      npMin_shift_scale _ hzne _ _ hepos, npMax_shift_scale _ hzne _ _ hepos]
    have hc1 : c.1 = (mnx + mxx) / 2 := by rw [hc_def]
    have hc2 : c.2.1 = (mny + mxy) / 2 := by rw [hc_def]
    have hc3 : c.2.2 = (mnz + mxz) / 2 := by rw [hc_def]
    rw [hc1, hc2, hc3]
    have hne' : e ≠ 0 := ne_of_gt hepos
    refine ⟨by field_simp; ring, by field_simp; ring, by field_simp; ring, ?_, ?_, ?_⟩
    · rw [div_sub_div_same]
      have h1 : (mxx - (mnx + mxx) / 2 - (mnx - (mnx + mxx) / 2)) = mxx - mnx := by ring
      rw [h1]
      have h2 : (mxx - mnx) / e ≤ 1 := (div_le_one hepos).mpr hex
      linarith
    · rw [div_sub_div_same]
      have h1 : (mxy - (mny + mxy) / 2 - (mny - (mny + mxy) / 2)) = mxy - mny := by ring
      rw [h1]
      have h2 : (mxy - mny) / e ≤ 1 := (div_le_one hepos).mpr hey
      linarith
    · rw [div_sub_div_same]
      have h1 : (mxz - (mnz + mxz) / 2 - (mnz - (mnz + mxz) / 2)) = mxz - mnz := by ring
      rw [h1]
      have h2 : (mxz - mnz) / e ≤ 1 := (div_le_one hepos).mpr hez
      linarith

/-- Concrete two-point cloud used to witness the normalization theorem. -/
def cloudB : List Point := [(0, 0, 0), (2, 0, 0)]

/-- C5 witness: the normalization theorem instantiated on `cloudB`. -/
theorem c5_normalize_coordinates_witness :
    cloudB ≠ [] ∧
    ((normalize_coordinates cloudB =
      if max (npMax (xsOf cloudB) - npMin (xsOf cloudB))
          (max (npMax (ysOf cloudB) - npMin (ysOf cloudB))
            (npMax (zsOf cloudB) - npMin (zsOf cloudB))) <
          epsRange then
        cloudB.map (fun p => psub p ((npMin (xsOf cloudB) + npMax (xsOf cloudB)) / 2,
          (npMin (ysOf cloudB) + npMax (ysOf cloudB)) / 2,
          (npMin (zsOf cloudB) + npMax (zsOf cloudB)) / 2))
      else
        cloudB.map (fun p => pdivQ (psub p ((npMin (xsOf cloudB) + npMax (xsOf cloudB)) / 2,
          (npMin (ysOf cloudB) + npMax (ysOf cloudB)) / 2,
          (npMin (zsOf cloudB) + npMax (zsOf cloudB)) / 2))
          (max (npMax (xsOf cloudB) - npMin (xsOf cloudB))
            (max (npMax (ysOf cloudB) - npMin (ysOf cloudB))
              (npMax (zsOf cloudB) - npMin (zsOf cloudB)))))) ∧
    (npMin (xsOf (normalize_coordinates cloudB)) + npMax (xsOf (normalize_coordinates cloudB)))
        / 2 = 0 ∧
    (npMin (ysOf (normalize_coordinates cloudB)) + npMax (ysOf (normalize_coordinates cloudB)))
        / 2 = 0 ∧
    (npMin (zsOf (normalize_coordinates cloudB)) + npMax (zsOf (normalize_coordinates cloudB)))
        / 2 = 0 ∧
    npMax (xsOf (normalize_coordinates cloudB)) - npMin (xsOf (normalize_coordinates cloudB))
        ≤ 2 ∧
    npMax (ysOf (normalize_coordinates cloudB)) - npMin (ysOf (normalize_coordinates cloudB))
        ≤ 2 ∧
    npMax (zsOf (normalize_coordinates cloudB)) - npMin (zsOf (normalize_coordinates cloudB))
        ≤ 2) :=
  ⟨by simp [cloudB], c5_normalize_coordinates cloudB (by simp [cloudB])⟩

/-! ### Claim C3 -/

theorem outlierMask_length (pts : List Point) (t : ℚ) :
    (outlierMask pts t).length = pts.length := by
  simp [outlierMask]

theorem distToCentroid_self (q : Point) : distToCentroid q q = 0 := by
  simp [distToCentroid]

theorem meanR_zero (l : List ℝ) (h : ∀ x ∈ l, x = 0) : meanR l = 0 := by
  rw [meanR, List.sum_eq_zero h, zero_div]

theorem stdR_zero (l : List ℝ) (h : ∀ x ∈ l, x = 0) : stdR l = 0 := by
  have hm : meanR l = 0 := meanR_zero l h
  rw [stdR, hm]
  have h2 : ∀ y ∈ l.map (fun x => (x - 0) ^ 2), y = 0 := by
    intro y hy
    rcases List.mem_map.mp hy with ⟨x, hx, hxy⟩
    rw [← hxy, h x hx]
    norm_num
  rw [meanR_zero _ h2, Real.sqrt_zero]

theorem centroid_all_eq (pts : List Point) (q : Point) (hne : pts ≠ [])
    (h : ∀ p ∈ pts, p = q) : centroid pts = q := by
  have hn : (pts.length : ℚ) ≠ 0 := by
    intro hh
    apply hne
    exact List.length_eq_zero.mp (by exact_mod_cast hh)
  have hx : (xsOf pts).sum = pts.length • q.1 := by
    have := List.sum_eq_card_nsmul (xsOf pts) q.1 (by
      intro x hx
      rcases List.mem_map.mp hx with ⟨p, hp, hpx⟩
      rw [← hpx, h p hp])
    simpa [xsOf] using this
  have hy : (ysOf pts).sum = pts.length • q.2.1 := by
    have := List.sum_eq_card_nsmul (ysOf pts) q.2.1 (by
      intro x hx
      rcases List.mem_map.mp hx with ⟨p, hp, hpx⟩
      rw [← hpx, h p hp])
    simpa [ysOf] using this
  have hz : (zsOf pts).sum = pts.length • q.2.2 := by
    have := List.sum_eq_card_nsmul (zsOf pts) q.2.2 (by
      intro x hx
      rcases List.mem_map.mp hx with ⟨p, hp, hpx⟩
      rw [← hpx, h p hp])
    simpa [zsOf] using this
  rw [centroid, hx, hy, hz]
  rw [nsmul_eq_mul, nsmul_eq_mul, nsmul_eq_mul,
    mul_div_cancel_left₀ _ hn, mul_div_cancel_left₀ _ hn, mul_div_cancel_left₀ _ hn]

theorem outlierMask_all_eq_false (pts : List Point) (t : ℚ) (q : Point)
    (hne : pts ≠ []) (h : ∀ p ∈ pts, p = q) :
    ∀ b ∈ outlierMask pts t, b = false := by
  have hc : centroid pts = q := centroid_all_eq pts q hne h
  have hd : ∀ d ∈ pts.map (fun p => distToCentroid p (centroid pts)), d = 0 := by
    intro d hdm
    rcases List.mem_map.mp hdm with ⟨p, hp, hpd⟩
    rw [← hpd, hc, h p hp]
    exact distToCentroid_self q
  have hmean : meanR (pts.map (fun p => distToCentroid p (centroid pts))) = 0 :=
    meanR_zero _ hd
  have hstd : stdR (pts.map (fun p => distToCentroid p (centroid pts))) = 0 :=
    stdR_zero _ hd
  intro b hb
  simp only [outlierMask] at hb
  rcases List.mem_map.mp hb with ⟨d, hdm, hdb⟩
  rw [← hdb, hd d hdm, hmean, hstd]
  simp

/-- If all points of a non-empty cloud coincide, `filter_outliers` returns the
empty cloud (every distance equals the mean and the strict `<` fails). -/
theorem filter_outliers_all_eq (pts : List Point) (cols : List Color) (t : ℚ) (q : Point)
    (hne : pts ≠ []) (h : ∀ p ∈ pts, p = q) :
    filter_outliers pts cols t = ([], []) := by
  have hmask := outlierMask_all_eq_false pts t q hne h
  rw [filter_outliers, applyMask_false _ _ hmask, applyMask_false _ _ hmask]

/-- C3: for every non-empty cloud, `filter_outliers` retains exactly the
points whose Euclidean distance to the centroid is strictly less than the
mean distance plus `threshold` times the population standard deviation of the
distances, and filters colors with the identical index mask preserving order;
in particular, for a cloud whose points all coincide the strict `<` retains
no points and the output is empty. -/
theorem c3_filter_outliers (pts : List Point) (cols : List Color) (t : ℚ)
    (hne : pts ≠ []) (hlen : cols.length = pts.length) :
    ((filter_outliers pts cols t).1 =
      ((List.range pts.length).filter (fun i => (outlierMask pts t).getD i false)).map
        (fun i => pts.getD i (0, 0, 0))) ∧
    ((filter_outliers pts cols t).2 =
      ((List.range pts.length).filter (fun i => (outlierMask pts t).getD i false)).map
        (fun i => cols.getD i (0, 0, 0))) ∧
    (∀ i : ℕ, i < pts.length →
      ((outlierMask pts t).getD i false = true ↔
        distToCentroid (pts.getD i (0, 0, 0)) (centroid pts) <
          meanR (pts.map (fun p => distToCentroid p (centroid pts))) +
            (t : ℝ) * stdR (pts.map (fun p => distToCentroid p (centroid pts))))) ∧
    ((∀ p ∈ pts, p = pts.getD 0 (0, 0, 0)) → filter_outliers pts cols t = ([], [])) := by
  have hmlen : (outlierMask pts t).length = pts.length := outlierMask_length pts t
  refine ⟨?_, ?_, ?_, ?_⟩
  · exact applyMask_eq_filter_range (0, 0, 0) pts (outlierMask pts t) hmlen
  · have h := applyMask_eq_filter_range (0, 0, 0) cols (outlierMask pts t)
      (by rw [hmlen, hlen])
    rw [hlen] at h
    exact h
  · intro i hi
    have hi' : i < (outlierMask pts t).length := by rw [hmlen]; exact hi
    have hid : i < (pts.map (fun p => distToCentroid p (centroid pts))).length := by
      rw [List.length_map]; exact hi
    have h1 : (outlierMask pts t).getD i false =
        decide ((pts.map (fun p => distToCentroid p (centroid pts))).getD i 0 <
          meanR (pts.map (fun p => distToCentroid p (centroid pts))) +
            (t : ℝ) * stdR (pts.map (fun p => distToCentroid p (centroid pts)))) := by
      rw [List.getD_eq_getElem _ _ hi', List.getD_eq_getElem _ _ hid]
      simp [outlierMask]
    have h2 : (pts.map (fun p => distToCentroid p (centroid pts))).getD i 0 =
        distToCentroid (pts.getD i (0, 0, 0)) (centroid pts) := by
      rw [List.getD_eq_getElem _ _ hid, List.getElem_map, List.getD_eq_getElem _ _ hi]
    rw [h1, h2]
    exact decide_eq_true_iff
  · intro hall
    exact filter_outliers_all_eq pts cols t (pts.getD 0 (0, 0, 0)) hne hall

/-- C3 witness: the `filter_outliers` theorem instantiated on the single-point
cloud `[(0,0,0)]` with threshold 2; the all-coincident conjunct applies and
the output is empty. -/
theorem c3_filter_outliers_witness :
    (([((0:ℚ), (0:ℚ), (0:ℚ))] : List Point) ≠ [] ∧
      ([((0:ℚ), (0:ℚ), (0:ℚ))] : List Color).length =
        ([((0:ℚ), (0:ℚ), (0:ℚ))] : List Point).length) ∧
    (((filter_outliers [((0:ℚ), (0:ℚ), (0:ℚ))] [((0:ℚ), (0:ℚ), (0:ℚ))] 2).1 =
      ((List.range ([((0:ℚ), (0:ℚ), (0:ℚ))] : List Point).length).filter
        (fun i => (outlierMask [((0:ℚ), (0:ℚ), (0:ℚ))] 2).getD i false)).map
        (fun i => ([((0:ℚ), (0:ℚ), (0:ℚ))] : List Point).getD i (0, 0, 0))) ∧
    ((filter_outliers [((0:ℚ), (0:ℚ), (0:ℚ))] [((0:ℚ), (0:ℚ), (0:ℚ))] 2).2 =
      ((List.range ([((0:ℚ), (0:ℚ), (0:ℚ))] : List Point).length).filter
        (fun i => (outlierMask [((0:ℚ), (0:ℚ), (0:ℚ))] 2).getD i false)).map
        (fun i => ([((0:ℚ), (0:ℚ), (0:ℚ))] : List Color).getD i (0, 0, 0))) ∧
    (∀ i : ℕ, i < ([((0:ℚ), (0:ℚ), (0:ℚ))] : List Point).length →
      ((outlierMask [((0:ℚ), (0:ℚ), (0:ℚ))] 2).getD i false = true ↔
        distToCentroid (([((0:ℚ), (0:ℚ), (0:ℚ))] : List Point).getD i (0, 0, 0))
            (centroid [((0:ℚ), (0:ℚ), (0:ℚ))]) <
          meanR (([((0:ℚ), (0:ℚ), (0:ℚ))] : List Point).map
              (fun p => distToCentroid p (centroid [((0:ℚ), (0:ℚ), (0:ℚ))]))) +
            ((2 : ℚ) : ℝ) * stdR (([((0:ℚ), (0:ℚ), (0:ℚ))] : List Point).map
              (fun p => distToCentroid p (centroid [((0:ℚ), (0:ℚ), (0:ℚ))]))))) ∧
    ((∀ p ∈ ([((0:ℚ), (0:ℚ), (0:ℚ))] : List Point),
        p = ([((0:ℚ), (0:ℚ), (0:ℚ))] : List Point).getD 0 (0, 0, 0)) →
      filter_outliers [((0:ℚ), (0:ℚ), (0:ℚ))] [((0:ℚ), (0:ℚ), (0:ℚ))] 2 = ([], []))) :=
  ⟨⟨by simp, rfl⟩,
    c3_filter_outliers [((0:ℚ), (0:ℚ), (0:ℚ))] [((0:ℚ), (0:ℚ), (0:ℚ))] 2 (by simp) rfl⟩

/-! ### Claim C4 -/

/-- C4 (amended): applying `filter_outliers` to its own output with the same
threshold returns an order-preserving subsequence (sublist) of that output —
it never adds, reorders or invents points or colors — but it is not
idempotent in general: the second application can remove further points, as
the recomputed centroid, mean and standard deviation shrink. -/
theorem c4_refilter_sublist (pts : List Point) (cols : List Color) (t : ℚ) :
    (filter_outliers (filter_outliers pts cols t).1 (filter_outliers pts cols t).2 t).1.Sublist
      (filter_outliers pts cols t).1 ∧
    (filter_outliers (filter_outliers pts cols t).1 (filter_outliers pts cols t).2 t).2.Sublist
      (filter_outliers pts cols t).2 :=
  ⟨applyMask_sublist _ _, applyMask_sublist _ _⟩

/-- C4 counterexample: on four coincident points plus one outlier at distance
4 from the centroid (exactly the cutoff `mean + 2 * std = 4`), the first pass
removes the outlier, leaving four identical points; the second pass with the
same threshold then empties the cloud, so `filter_outliers` is not
idempotent. -/
theorem c4_counterexample :
    filter_outliers
        [((0:ℚ), (0:ℚ), (0:ℚ)), (0, 0, 0), (0, 0, 0), (0, 0, 0), (5, 0, 0)]
        [((1:ℚ), (1:ℚ), (1:ℚ)), (1, 1, 1), (1, 1, 1), (1, 1, 1), (1, 1, 1)] 2 =
      ([(0, 0, 0), (0, 0, 0), (0, 0, 0), (0, 0, 0)],
        [(1, 1, 1), (1, 1, 1), (1, 1, 1), (1, 1, 1)]) ∧
    filter_outliers [((0:ℚ), (0:ℚ), (0:ℚ)), (0, 0, 0), (0, 0, 0), (0, 0, 0)]
        [((1:ℚ), (1:ℚ), (1:ℚ)), (1, 1, 1), (1, 1, 1), (1, 1, 1)] 2 = ([], []) ∧
    filter_outliers
        (filter_outliers
          [((0:ℚ), (0:ℚ), (0:ℚ)), (0, 0, 0), (0, 0, 0), (0, 0, 0), (5, 0, 0)]
          [((1:ℚ), (1:ℚ), (1:ℚ)), (1, 1, 1), (1, 1, 1), (1, 1, 1), (1, 1, 1)] 2).1
        (filter_outliers
          [((0:ℚ), (0:ℚ), (0:ℚ)), (0, 0, 0), (0, 0, 0), (0, 0, 0), (5, 0, 0)]
          [((1:ℚ), (1:ℚ), (1:ℚ)), (1, 1, 1), (1, 1, 1), (1, 1, 1), (1, 1, 1)] 2).2 2 ≠
      filter_outliers
        [((0:ℚ), (0:ℚ), (0:ℚ)), (0, 0, 0), (0, 0, 0), (0, 0, 0), (5, 0, 0)]
        [((1:ℚ), (1:ℚ), (1:ℚ)), (1, 1, 1), (1, 1, 1), (1, 1, 1), (1, 1, 1)] 2 := by
  have ho : centroid [((0:ℚ), (0:ℚ), (0:ℚ)), (0, 0, 0), (0, 0, 0), (0, 0, 0), (5, 0, 0)] =
      ((1:ℚ), (0:ℚ), (0:ℚ)) := by
    norm_num [centroid, xsOf, ysOf, zsOf]
  have hd1 : distToCentroid ((0:ℚ), (0:ℚ), (0:ℚ)) ((1:ℚ), (0:ℚ), (0:ℚ)) = 1 := by
    have h : distToCentroid ((0:ℚ), (0:ℚ), (0:ℚ)) ((1:ℚ), (0:ℚ), (0:ℚ)) = Real.sqrt 1 := by
      rw [distToCentroid]
      norm_num
    rw [h, Real.sqrt_one]
  have hd5 : distToCentroid ((5:ℚ), (0:ℚ), (0:ℚ)) ((1:ℚ), (0:ℚ), (0:ℚ)) = 4 := by
    have h : distToCentroid ((5:ℚ), (0:ℚ), (0:ℚ)) ((1:ℚ), (0:ℚ), (0:ℚ)) = Real.sqrt 16 := by
      rw [distToCentroid]
      norm_num
    rw [h, show (16:ℝ) = 4 ^ 2 by norm_num, Real.sqrt_sq (by norm_num : (0:ℝ) ≤ 4)]
  have hdists : ([((0:ℚ), (0:ℚ), (0:ℚ)), (0, 0, 0), (0, 0, 0), (0, 0, 0), (5, 0, 0)]).map
      (fun p => distToCentroid p
        (centroid [((0:ℚ), (0:ℚ), (0:ℚ)), (0, 0, 0), (0, 0, 0), (0, 0, 0), (5, 0, 0)])) =
      [1, 1, 1, 1, 4] := by
    rw [ho]
    simp only [List.map_cons, List.map_nil, hd1, hd5]
  have hmean : meanR [(1:ℝ), 1, 1, 1, 4] = 8 / 5 := by
    norm_num [meanR]
  have hsq : ([(1:ℝ), 1, 1, 1, 4].map (fun x => (x - meanR [(1:ℝ), 1, 1, 1, 4]) ^ 2)) =
      [9/25, 9/25, 9/25, 9/25, 144/25] := by
    rw [hmean]
    norm_num
  have hstd : stdR [(1:ℝ), 1, 1, 1, 4] = 6 / 5 := by
    rw [stdR, hsq]
    have h2 : meanR [(9:ℝ)/25, 9/25, 9/25, 9/25, 144/25] = 36 / 25 := by
      norm_num [meanR]
    rw [h2, show (36/25 : ℝ) = (6/5) ^ 2 by norm_num,
      Real.sqrt_sq (by norm_num : (0:ℝ) ≤ 6/5)]
  have hmask : outlierMask
      [((0:ℚ), (0:ℚ), (0:ℚ)), (0, 0, 0), (0, 0, 0), (0, 0, 0), (5, 0, 0)] 2 =
      [true, true, true, true, false] := by
    simp only [outlierMask]
    rw [hdists, hmean, hstd]
    norm_num [decide_eq_true_eq, decide_eq_false_iff_not]
  have h1 : filter_outliers
      [((0:ℚ), (0:ℚ), (0:ℚ)), (0, 0, 0), (0, 0, 0), (0, 0, 0), (5, 0, 0)]
      [((1:ℚ), (1:ℚ), (1:ℚ)), (1, 1, 1), (1, 1, 1), (1, 1, 1), (1, 1, 1)] 2 =
      ([(0, 0, 0), (0, 0, 0), (0, 0, 0), (0, 0, 0)],
        [(1, 1, 1), (1, 1, 1), (1, 1, 1), (1, 1, 1)]) := by
    rw [filter_outliers, hmask]
    rfl
  have h2 : filter_outliers [((0:ℚ), (0:ℚ), (0:ℚ)), (0, 0, 0), (0, 0, 0), (0, 0, 0)]
      [((1:ℚ), (1:ℚ), (1:ℚ)), (1, 1, 1), (1, 1, 1), (1, 1, 1)] 2 = ([], []) := by
    refine filter_outliers_all_eq _ _ 2 ((0:ℚ), (0:ℚ), (0:ℚ)) (by simp) ?_
    intro p hp
    simp at hp
    exact hp
  refine ⟨h1, h2, ?_⟩
  rw [h1]
  simp only [h2, h1]
  intro hcontra
  exact absurd (congrArg (fun r => r.1.length) hcontra) (by simp)

/-! ### Claim C7 -/

theorem c7_aux_mask_getD (descs : List (List ℚ)) (qt : ℚ) (i : ℕ) (hi : i < descs.length) :
    ((descs.map descriptorNorm).map
        (fun x => decide ((qt : ℝ) < x / (npMaxR (descs.map descriptorNorm) + (epsRange : ℝ))))).getD
      i false =
    decide ((qt : ℝ) < descriptorNorm (descs.getD i []) /
      (npMaxR (descs.map descriptorNorm) + (epsRange : ℝ))) := by
  have h1 : i < ((descs.map descriptorNorm).map
      (fun x => decide ((qt : ℝ) < x / (npMaxR (descs.map descriptorNorm) + (epsRange : ℝ))))).length := by
    simp [hi]
  have h2 : i < (descs.map descriptorNorm).length := by simp [hi]
  rw [List.getD_eq_getElem _ _ h1, List.getElem_map, List.getElem_map,
    List.getD_eq_getElem _ _ hi]

/-- C7: for every non-empty feature set, `filter_features_by_quality` computes
each descriptor's Euclidean norm, divides by the maximum norm present plus
`1e-10`, and keeps exactly the features whose normalized score strictly
exceeds the threshold; in particular a descriptor of norm exactly 0 has score
0 and is excluded whenever the threshold is non-negative, hence also at the
default threshold 0. -/
theorem c7_filter_features_by_quality (kps : List Point) (descs : List (List ℚ)) (qt : ℚ)
    (hne : descs ≠ []) (hlen : kps.length = descs.length) :
    ((filter_features_by_quality kps descs qt).1 =
      ((List.range descs.length).filter
        (fun i => decide ((qt : ℝ) < descriptorNorm (descs.getD i []) /
          (npMaxR (descs.map descriptorNorm) + (epsRange : ℝ))))).map
        (fun i => kps.getD i (0, 0, 0))) ∧
    ((filter_features_by_quality kps descs qt).2 =
      ((List.range descs.length).filter
        (fun i => decide ((qt : ℝ) < descriptorNorm (descs.getD i []) /
          (npMaxR (descs.map descriptorNorm) + (epsRange : ℝ))))).map
        (fun i => descs.getD i [])) ∧
    (∀ i : ℕ, i < descs.length → descriptorNorm (descs.getD i []) = 0 → 0 ≤ qt →
      decide ((qt : ℝ) < descriptorNorm (descs.getD i []) /
        (npMaxR (descs.map descriptorNorm) + (epsRange : ℝ))) = false) := by
  have hlz : ¬(descs.length = 0) := fun h => hne (List.length_eq_zero.mp h)
  have hmask : ∀ i ∈ List.range descs.length,
      ((descs.map descriptorNorm).map
        (fun x => decide ((qt : ℝ) < x /
          (npMaxR (descs.map descriptorNorm) + (epsRange : ℝ))))).getD i false =
      decide ((qt : ℝ) < descriptorNorm (descs.getD i []) /
        (npMaxR (descs.map descriptorNorm) + (epsRange : ℝ))) := by
    intro i hi
    exact c7_aux_mask_getD descs qt i (List.mem_range.mp hi)
  have hmasklen : ((descs.map descriptorNorm).map
      (fun x => decide ((qt : ℝ) < x /
        (npMaxR (descs.map descriptorNorm) + (epsRange : ℝ))))).length = descs.length := by
    simp
  have hout1 : (filter_features_by_quality kps descs qt).1 =
      applyMask kps ((descs.map descriptorNorm).map
        (fun x => decide ((qt : ℝ) < x /
          (npMaxR (descs.map descriptorNorm) + (epsRange : ℝ))))) := by
    rw [filter_features_by_quality, if_neg hlz]
  have hout2 : (filter_features_by_quality kps descs qt).2 =
      applyMask descs ((descs.map descriptorNorm).map
        (fun x => decide ((qt : ℝ) < x /
          (npMaxR (descs.map descriptorNorm) + (epsRange : ℝ))))) := by
    rw [filter_features_by_quality, if_neg hlz]
  refine ⟨?_, ?_, ?_⟩
  · rw [hout1, applyMask_eq_filter_range ((0:ℚ), (0:ℚ), (0:ℚ)) kps _ (by rw [hmasklen, hlen]),
      hlen, List.filter_congr hmask]
  · rw [hout2, applyMask_eq_filter_range [] descs _ (by rw [hmasklen]),
      List.filter_congr hmask]
  · intro i hi hzero hqt
    rw [hzero, zero_div]
    rw [decide_eq_false_iff_not]
    exact not_lt.mpr (by exact_mod_cast hqt)

/-- C7 witness: the quality-filter theorem instantiated on a two-feature set
whose first descriptor has norm 0, at the default threshold 0. -/
theorem c7_filter_features_by_quality_witness :
    (([[(0:ℚ)], [3, 4]] : List (List ℚ)) ≠ [] ∧
      ([((0:ℚ), (0:ℚ), (0:ℚ)), (1, 1, 1)] : List Point).length =
        ([[(0:ℚ)], [3, 4]] : List (List ℚ)).length) ∧
    (((filter_features_by_quality [((0:ℚ), (0:ℚ), (0:ℚ)), (1, 1, 1)] [[(0:ℚ)], [3, 4]] 0).1 =
      ((List.range ([[(0:ℚ)], [3, 4]] : List (List ℚ)).length).filter
        (fun i => decide (((0:ℚ) : ℝ) < descriptorNorm (([[(0:ℚ)], [3, 4]] : List (List ℚ)).getD i []) /
          (npMaxR (([[(0:ℚ)], [3, 4]] : List (List ℚ)).map descriptorNorm) + (epsRange : ℝ))))).map
        (fun i => ([((0:ℚ), (0:ℚ), (0:ℚ)), (1, 1, 1)] : List Point).getD i (0, 0, 0))) ∧
    ((filter_features_by_quality [((0:ℚ), (0:ℚ), (0:ℚ)), (1, 1, 1)] [[(0:ℚ)], [3, 4]] 0).2 =
      ((List.range ([[(0:ℚ)], [3, 4]] : List (List ℚ)).length).filter
        (fun i => decide (((0:ℚ) : ℝ) < descriptorNorm (([[(0:ℚ)], [3, 4]] : List (List ℚ)).getD i []) /
          (npMaxR (([[(0:ℚ)], [3, 4]] : List (List ℚ)).map descriptorNorm) + (epsRange : ℝ))))).map
        (fun i => ([[(0:ℚ)], [3, 4]] : List (List ℚ)).getD i [])) ∧
    (∀ i : ℕ, i < ([[(0:ℚ)], [3, 4]] : List (List ℚ)).length →
      descriptorNorm (([[(0:ℚ)], [3, 4]] : List (List ℚ)).getD i []) = 0 → 0 ≤ (0:ℚ) →
      decide (((0:ℚ) : ℝ) < descriptorNorm (([[(0:ℚ)], [3, 4]] : List (List ℚ)).getD i []) /
        (npMaxR (([[(0:ℚ)], [3, 4]] : List (List ℚ)).map descriptorNorm) + (epsRange : ℝ))) =
        false)) :=
  ⟨⟨by simp, rfl⟩,
    c7_filter_features_by_quality [((0:ℚ), (0:ℚ), (0:ℚ)), (1, 1, 1)] [[(0:ℚ)], [3, 4]] 0
      (by simp) rfl⟩

/-! ### Claim C6 -/

instance argLeTotal (norms : List ℝ) : IsTotal ℕ (argLe norms) :=
  ⟨fun i j => by
    rcases lt_trichotomy (norms.getD i 0) (norms.getD j 0) with h | h | h
    · exact Or.inl (Or.inl h)
    · rcases le_total i j with hij | hij
      · exact Or.inl (Or.inr ⟨h, hij⟩)
      · exact Or.inr (Or.inr ⟨h.symm, hij⟩)
    · exact Or.inr (Or.inl h)⟩

instance argLeTrans (norms : List ℝ) : IsTrans ℕ (argLe norms) :=
  ⟨fun i j k hij hjk => by
    rcases hij with h1 | ⟨h1, hle1⟩
    · rcases hjk with h2 | ⟨h2, _⟩
      · exact Or.inl (lt_trans h1 h2)
      · exact Or.inl (h2 ▸ h1)
    · rcases hjk with h2 | ⟨h2, hle2⟩
      · exact Or.inl (h1 ▸ h2)
      · exact Or.inr ⟨h1.trans h2, le_trans hle1 hle2⟩⟩

theorem normsGetD (descs : List (List ℚ)) (m : ℕ) (hm : m < descs.length) :
    (descs.map descriptorNorm).getD m 0 = descriptorNorm (descs.getD m []) := by
  have h1 : m < (descs.map descriptorNorm).length := by simp [hm]
  rw [List.getD_eq_getElem _ _ h1, List.getElem_map, List.getD_eq_getElem _ _ hm]

/-- C6 (amended): `limit_feature_count` returns exactly
`min k (number of features)` features; when truncation happens the kept set is
exactly the `k` features of highest descriptor Euclidean norm, but ties among
equal norms at the cut boundary are broken in favour of LATER original
indices (the reversal of the ascending argsort puts later indices first among
equal keys), not earlier ones. -/
theorem c6_limit_feature_count (kps : List Point) (descs : List (List ℚ)) (k : ℕ)
    (hlen : descs.length = kps.length) :
    ((limit_feature_count kps descs k).1.length = min k kps.length) ∧
    ((limit_feature_count kps descs k).2.length = min k kps.length) ∧
    (kps.length ≤ k → limit_feature_count kps descs k = (kps, descs)) ∧
    (k < kps.length → ∃ sel : List ℕ, sel.length = k ∧ sel.Nodup ∧
      (∀ i ∈ sel, i < kps.length) ∧
      (limit_feature_count kps descs k).1 = sel.map (fun i => kps.getD i (0, 0, 0)) ∧
      (limit_feature_count kps descs k).2 = sel.map (fun i => descs.getD i []) ∧
      (∀ i ∈ sel, ∀ j : ℕ, j < kps.length → j ∉ sel →
        (descriptorNorm (descs.getD j []) < descriptorNorm (descs.getD i []) ∨
          (descriptorNorm (descs.getD j []) = descriptorNorm (descs.getD i []) ∧ j < i)))) := by
  by_cases hk : kps.length ≤ k
  · have hid : limit_feature_count kps descs k = (kps, descs) := by
      rw [limit_feature_count, if_pos hk]
    refine ⟨?_, ?_, fun _ => hid, fun hlt => absurd hlt (not_lt.mpr hk)⟩
    · rw [hid]
      exact (min_eq_right hk).symm
    · rw [hid]
      show descs.length = min k kps.length
      rw [hlen]
      exact (min_eq_right hk).symm
  · push_neg at hk
    set norms := descs.map descriptorNorm with hnorms
    set s := argsortAsc norms descs.length with hs_def
    set sel := s.reverse.take k with hsel_def
    have hperm : s.Perm (List.range descs.length) := List.perm_insertionSort _ _
    have hsorted : s.Sorted (argLe norms) := List.sorted_insertionSort _ _
    have hif : limit_feature_count kps descs k =
        (sel.map (fun i => kps.getD i (0, 0, 0)), sel.map (fun i => descs.getD i [])) := by
      rw [limit_feature_count, if_neg (not_le.mpr hk)]
    have hslen : s.length = descs.length := hperm.length_eq.trans (List.length_range _)
    have hsellen : sel.length = k := by
      rw [hsel_def]
      refine List.length_take_of_le ?_
      rw [List.length_reverse, hslen, hlen]
      exact le_of_lt hk
    have hnodup_s : s.Nodup := hperm.nodup_iff.mpr (List.nodup_range _)
    have hnodup_sel : sel.Nodup :=
      (List.take_sublist _ _).nodup (List.nodup_reverse.mpr hnodup_s)
    have hmem_sel : ∀ i ∈ sel, i < kps.length := by
      intro i hi
      have h1 : i ∈ s.reverse := List.mem_of_mem_take hi
      have h2 : i ∈ s := List.mem_reverse.mp h1
      have h3 : i ∈ List.range descs.length := hperm.mem_iff.mp h2
      rw [← hlen]
      exact List.mem_range.mp h3
    have hsplit : s.reverse = sel ++ s.reverse.drop k := (List.take_append_drop k s.reverse).symm
    have hrev : s.reverse.Pairwise (flip (argLe norms)) :=
      List.pairwise_reverse.mpr (by simpa [flip] using hsorted)
    have hcross : ∀ a ∈ sel, ∀ b ∈ s.reverse.drop k, argLe norms b a := by
      have h1 : (sel ++ s.reverse.drop k).Pairwise (flip (argLe norms)) := hsplit ▸ hrev
      exact fun a ha b hb => (List.pairwise_append.mp h1).2.2 a ha b hb
    have hdom : ∀ i ∈ sel, ∀ j : ℕ, j < kps.length → j ∉ sel →
        (descriptorNorm (descs.getD j []) < descriptorNorm (descs.getD i []) ∨
          (descriptorNorm (descs.getD j []) = descriptorNorm (descs.getD i []) ∧ j < i)) := by
      intro i hi j hj hjnot
      have hjn : j < descs.length := by rw [hlen]; exact hj
      have hjrange : j ∈ List.range descs.length := List.mem_range.mpr hjn
      have hjs : j ∈ s.reverse := List.mem_reverse.mpr (hperm.mem_iff.mpr hjrange)
      have hjdrop : j ∈ s.reverse.drop k := by
        rcases List.mem_append.mp (hsplit ▸ hjs) with h | h
        · exact absurd h hjnot
        · exact h
      have hle : argLe norms j i := hcross i hi j hjdrop
      have hne : j ≠ i := fun heq => hjnot (heq ▸ hi)
      have hin : i < descs.length := by rw [hlen]; exact hmem_sel i hi
      rcases hle with h | ⟨heq, hlej⟩
      · left
        rw [← normsGetD descs j hjn, ← normsGetD descs i hin]
        exact h
      · right
        refine ⟨?_, lt_of_le_of_ne hlej hne⟩
        rw [← normsGetD descs j hjn, ← normsGetD descs i hin]
        exact heq
    refine ⟨?_, ?_, fun hle => absurd hk (not_lt.mpr hle), fun _ =>
      ⟨sel, hsellen, hnodup_sel, hmem_sel, by rw [hif], by rw [hif], hdom⟩⟩
    · rw [hif]
      show (sel.map (fun i => kps.getD i (0, 0, 0))).length = min k kps.length
      rw [List.length_map, hsellen, min_eq_left (le_of_lt hk)]
    · rw [hif]
      show (sel.map (fun i => descs.getD i [])).length = min k kps.length
      rw [List.length_map, hsellen, min_eq_left (le_of_lt hk)]

/-- C6 counterexample: two features with equal descriptor norms (`[3,4]` and
`[4,3]`, both of norm 5) and `max_count = 1`: the source sorts ascending and
reverses, so it keeps the LATER feature (index 1), while the claim's
earlier-index tie-break would keep index 0. -/
theorem c6_counterexample :
    descriptorNorm [(3:ℚ), 4] = descriptorNorm [(4:ℚ), 3] ∧
    limit_feature_count [((0:ℚ), (0:ℚ), (0:ℚ)), (1, 1, 1)] [[(3:ℚ), 4], [(4:ℚ), 3]] 1 =
      ([(1, 1, 1)], [[(4:ℚ), 3]]) ∧
    ((1:ℚ), (1:ℚ), (1:ℚ)) ≠ ((0:ℚ), (0:ℚ), (0:ℚ)) := by
  have h34 : descriptorNorm [(3:ℚ), 4] = Real.sqrt 25 := by
    rw [descriptorNorm]
    norm_num
  have h43 : descriptorNorm [(4:ℚ), 3] = Real.sqrt 25 := by
    rw [descriptorNorm]
    norm_num
  have heq : descriptorNorm [(3:ℚ), 4] = descriptorNorm [(4:ℚ), 3] := by rw [h34, h43]
  refine ⟨heq, ?_, by norm_num [Prod.ext_iff]⟩
  have hr01 : argLe ([[(3:ℚ), 4], [(4:ℚ), 3]].map descriptorNorm) 0 1 := by
    right
    refine ⟨?_, by norm_num⟩
    show descriptorNorm [(3:ℚ), 4] = descriptorNorm [(4:ℚ), 3]
    exact heq
  have hrange : List.range 2 = [0, 1] := rfl
  have hsort : argsortAsc ([[(3:ℚ), 4], [(4:ℚ), 3]].map descriptorNorm) 2 = [0, 1] := by
    rw [argsortAsc, hrange]
    simp only [List.insertionSort, List.orderedInsert]
    rw [if_pos hr01]
  rw [limit_feature_count, if_neg (by decide)]
  simp only [List.length_cons, List.length_nil]
  rw [hsort]
  rfl

/-- C6 witness: the `limit_feature_count` theorem instantiated on two features
with distinct norms and `max_count = 1`. -/
theorem c6_limit_feature_count_witness :
    ([[(1:ℚ)], [2]] : List (List ℚ)).length =
      ([((0:ℚ), (0:ℚ), (0:ℚ)), (1, 1, 1)] : List Point).length ∧
    (((limit_feature_count [((0:ℚ), (0:ℚ), (0:ℚ)), (1, 1, 1)] [[(1:ℚ)], [2]] 1).1.length =
      min 1 ([((0:ℚ), (0:ℚ), (0:ℚ)), (1, 1, 1)] : List Point).length) ∧
    ((limit_feature_count [((0:ℚ), (0:ℚ), (0:ℚ)), (1, 1, 1)] [[(1:ℚ)], [2]] 1).2.length =
      min 1 ([((0:ℚ), (0:ℚ), (0:ℚ)), (1, 1, 1)] : List Point).length) ∧
    (([((0:ℚ), (0:ℚ), (0:ℚ)), (1, 1, 1)] : List Point).length ≤ 1 →
      limit_feature_count [((0:ℚ), (0:ℚ), (0:ℚ)), (1, 1, 1)] [[(1:ℚ)], [2]] 1 =
        ([((0:ℚ), (0:ℚ), (0:ℚ)), (1, 1, 1)], [[(1:ℚ)], [2]])) ∧
    (1 < ([((0:ℚ), (0:ℚ), (0:ℚ)), (1, 1, 1)] : List Point).length →
      ∃ sel : List ℕ, sel.length = 1 ∧ sel.Nodup ∧
        (∀ i ∈ sel, i < ([((0:ℚ), (0:ℚ), (0:ℚ)), (1, 1, 1)] : List Point).length) ∧
        (limit_feature_count [((0:ℚ), (0:ℚ), (0:ℚ)), (1, 1, 1)] [[(1:ℚ)], [2]] 1).1 =
          sel.map (fun i => ([((0:ℚ), (0:ℚ), (0:ℚ)), (1, 1, 1)] : List Point).getD i (0, 0, 0)) ∧
        (limit_feature_count [((0:ℚ), (0:ℚ), (0:ℚ)), (1, 1, 1)] [[(1:ℚ)], [2]] 1).2 =
          sel.map (fun i => ([[(1:ℚ)], [2]] : List (List ℚ)).getD i []) ∧
        (∀ i ∈ sel, ∀ j : ℕ, j < ([((0:ℚ), (0:ℚ), (0:ℚ)), (1, 1, 1)] : List Point).length →
          j ∉ sel →
          (descriptorNorm (([[(1:ℚ)], [2]] : List (List ℚ)).getD j []) <
              descriptorNorm (([[(1:ℚ)], [2]] : List (List ℚ)).getD i []) ∨
            (descriptorNorm (([[(1:ℚ)], [2]] : List (List ℚ)).getD j []) =
                descriptorNorm (([[(1:ℚ)], [2]] : List (List ℚ)).getD i []) ∧ j < i))))) :=
  ⟨rfl, c6_limit_feature_count [((0:ℚ), (0:ℚ), (0:ℚ)), (1, 1, 1)] [[(1:ℚ)], [2]] 1 rfl⟩

/-! ### Claim C8 -/

/-- C8: when the detector returns zero keypoints, `extract_sift_features`
returns the empty FeatureSet as a success value (feature_extraction.py:59-60),
and when the feature-extraction step raises, `process_pointcloud` catches the
failure locally (main.py:94-97) and returns a SUCCESSFUL result whose
keypoints and descriptors are empty, so the downstream save/visualize stages
still run. -/
theorem c8_zero_features_and_local_catch (gauss : Raster → Raster)
    (detect : Raster → List (ℚ × ℚ) × List (List ℚ))
    (pts : List Point) (cols : List Color)
    (pc : List Point × List Color)
    (extractStep : List Point → List Color → Except PErr (List Point × List (List ℚ)))
    (e : PErr) :
    ((detect (gauss (buildRaster pts))).1 = [] →
      extract_sift_features gauss detect pts cols = ([], [])) ∧
    (validate_pointcloud pc.1 pc.2 = true →
      extractStep (normalize_coordinates (filter_outliers pc.1 pc.2 2).1)
          (filter_outliers pc.1 pc.2 2).2 = .error e →
      process_pointcloud (.ok pc) extractStep =
        .ok ⟨pc.1, pc.2, (filter_outliers pc.1 pc.2 2).1, (filter_outliers pc.1 pc.2 2).2,
          normalize_coordinates (filter_outliers pc.1 pc.2 2).1, [], []⟩) := by
  constructor
  · intro h
    rw [extract_sift_features]
    simp only [h, if_pos]
  · intro hv hstep
    have h1 : process_pointcloud (.ok pc) extractStep =
        if validate_pointcloud pc.1 pc.2 then
          (let fc := filter_outliers pc.1 pc.2 2
           let npts := normalize_coordinates fc.1
           let feats := match extractStep npts fc.2 with
             | .ok f => f
             | .error _ => ([], [])
           Except.ok ⟨pc.1, pc.2, fc.1, fc.2, npts, feats.1, feats.2⟩)
        else .error .invalidCloud := rfl
    rw [h1, if_pos hv]
    simp only [hstep]

/-- C8 witness: zero detections yield an empty success on a one-point cloud,
and a failing extraction step is degraded to an empty FeatureSet in a
successful pipeline result. -/
theorem c8_zero_features_and_local_catch_witness :
    (((fun _ => (([] : List (ℚ × ℚ)), ([] : List (List ℚ))))
        (id (buildRaster [((0:ℚ), (0:ℚ), (0:ℚ))]))).1 = [] ∧
      extract_sift_features id (fun _ => ([], [])) [((0:ℚ), (0:ℚ), (0:ℚ))] [] = ([], [])) ∧
    (validate_pointcloud [((0:ℚ), (0:ℚ), (0:ℚ))] [((1:ℚ), (1:ℚ), (1:ℚ))] = true ∧
      process_pointcloud (.ok ([((0:ℚ), (0:ℚ), (0:ℚ))], [((1:ℚ), (1:ℚ), (1:ℚ))]))
          (fun _ _ => .error PErr.extractFail) =
        .ok ⟨[((0:ℚ), (0:ℚ), (0:ℚ))], [((1:ℚ), (1:ℚ), (1:ℚ))],
          (filter_outliers [((0:ℚ), (0:ℚ), (0:ℚ))] [((1:ℚ), (1:ℚ), (1:ℚ))] 2).1,
          (filter_outliers [((0:ℚ), (0:ℚ), (0:ℚ))] [((1:ℚ), (1:ℚ), (1:ℚ))] 2).2,
          normalize_coordinates
            (filter_outliers [((0:ℚ), (0:ℚ), (0:ℚ))] [((1:ℚ), (1:ℚ), (1:ℚ))] 2).1,
          [], []⟩) := by
  have hv : validate_pointcloud [((0:ℚ), (0:ℚ), (0:ℚ))] [((1:ℚ), (1:ℚ), (1:ℚ))] = true := by
    simp [validate_pointcloud]
  refine ⟨⟨rfl, ?_⟩, hv, ?_⟩
  · exact (c8_zero_features_and_local_catch id (fun _ => ([], []))
      [((0:ℚ), (0:ℚ), (0:ℚ))] []
      ([((0:ℚ), (0:ℚ), (0:ℚ))], [((1:ℚ), (1:ℚ), (1:ℚ))])
      (fun _ _ => .error PErr.extractFail) PErr.extractFail).1 rfl
  · exact (c8_zero_features_and_local_catch id (fun _ => ([], []))
      [((0:ℚ), (0:ℚ), (0:ℚ))] []
      ([((0:ℚ), (0:ℚ), (0:ℚ))], [((1:ℚ), (1:ℚ), (1:ℚ))])
      (fun _ _ => .error PErr.extractFail) PErr.extractFail).2 hv rfl

/-! ### Claim C9 -/

/-- C9 (amended): when one camera's pipeline fails internally with ANY error
— load failure, validation failure or preprocessing failure alike — `main`'s
outer handler logs and re-raises it, so the whole run aborts with that error
and the other camera is not processed; only when both pipelines succeed does
the run succeed, and then failures of the locally-caught save and visualize
stages do not change the outcome. -/
theorem c9_main_aborts_on_pipeline_failure
    (loadLeft loadRight : Except PErr (List Point × List Color))
    (extractStep : List Point → List Color → Except PErr (List Point × List (List ℚ)))
    (saveRes visRes : Except PErr Unit) (e : PErr) (l r : PCResult) :
    (process_pointcloud loadLeft extractStep = .error e →
      mainRun loadLeft loadRight extractStep saveRes visRes = .error e) ∧
    (process_pointcloud loadLeft extractStep = .ok l →
      process_pointcloud loadRight extractStep = .error e →
      mainRun loadLeft loadRight extractStep saveRes visRes = .error e) ∧
    (process_pointcloud loadLeft extractStep = .ok l →
      process_pointcloud loadRight extractStep = .ok r →
      mainRun loadLeft loadRight extractStep saveRes visRes = .ok (l, r)) := by
  refine ⟨?_, ?_, ?_⟩
  · intro h
    rw [mainRun, h]
  · intro hl hr
    rw [mainRun, hl, hr]
  · intro hl hr
    rw [mainRun, hl, hr]

/-- C9 counterexample: the left camera's pipeline failing with a LOAD error
(not a validation failure) makes the whole run abort with that error — the
right camera, whose data is perfectly fine, is never processed — contradicting
the claim that only a validation failure raises out of the run. -/
theorem c9_counterexample :
    mainRun (.error PErr.loadFail)
        (.ok ([((0:ℚ), (0:ℚ), (0:ℚ))], [((1:ℚ), (1:ℚ), (1:ℚ))]))
        (fun _ _ => .ok ([], [])) (.ok ()) (.ok ()) = .error PErr.loadFail ∧
    PErr.loadFail ≠ PErr.invalidCloud :=
  ⟨rfl, by decide⟩

/-- C9 witness: the abort/continue theorem instantiated on concrete runs —
a failing left pipeline aborts, a failing right pipeline aborts, and a run
whose both pipelines succeed returns `.ok` even when saving and visualization
both fail. -/
theorem c9_main_aborts_on_pipeline_failure_witness :
    (mainRun (.error PErr.loadFail)
        (.ok ([((0:ℚ), (0:ℚ), (0:ℚ))], [((1:ℚ), (1:ℚ), (1:ℚ))]))
        (fun _ _ => .error PErr.extractFail) (.ok ()) (.ok ()) = .error PErr.loadFail) ∧
    (mainRun (.ok ([((0:ℚ), (0:ℚ), (0:ℚ))], [((1:ℚ), (1:ℚ), (1:ℚ))]))
        (.error PErr.loadFail)
        (fun _ _ => .error PErr.extractFail) (.ok ()) (.ok ()) = .error PErr.loadFail) ∧
    (mainRun (.ok ([((0:ℚ), (0:ℚ), (0:ℚ))], [((1:ℚ), (1:ℚ), (1:ℚ))]))
        (.ok ([((0:ℚ), (0:ℚ), (0:ℚ))], [((1:ℚ), (1:ℚ), (1:ℚ))]))
        (fun _ _ => .error PErr.extractFail) (.error PErr.saveFail) (.error PErr.visFail) =
      .ok (⟨[((0:ℚ), (0:ℚ), (0:ℚ))], [((1:ℚ), (1:ℚ), (1:ℚ))],
          (filter_outliers [((0:ℚ), (0:ℚ), (0:ℚ))] [((1:ℚ), (1:ℚ), (1:ℚ))] 2).1,
          (filter_outliers [((0:ℚ), (0:ℚ), (0:ℚ))] [((1:ℚ), (1:ℚ), (1:ℚ))] 2).2,
          normalize_coordinates
            (filter_outliers [((0:ℚ), (0:ℚ), (0:ℚ))] [((1:ℚ), (1:ℚ), (1:ℚ))] 2).1,
          [], []⟩,
        ⟨[((0:ℚ), (0:ℚ), (0:ℚ))], [((1:ℚ), (1:ℚ), (1:ℚ))],
          (filter_outliers [((0:ℚ), (0:ℚ), (0:ℚ))] [((1:ℚ), (1:ℚ), (1:ℚ))] 2).1,
          (filter_outliers [((0:ℚ), (0:ℚ), (0:ℚ))] [((1:ℚ), (1:ℚ), (1:ℚ))] 2).2,
          normalize_coordinates
            (filter_outliers [((0:ℚ), (0:ℚ), (0:ℚ))] [((1:ℚ), (1:ℚ), (1:ℚ))] 2).1,
          [], []⟩)) := by
  have hv : validate_pointcloud [((0:ℚ), (0:ℚ), (0:ℚ))] [((1:ℚ), (1:ℚ), (1:ℚ))] = true := by
    simp [validate_pointcloud]
  have hl : process_pointcloud
      (.ok ([((0:ℚ), (0:ℚ), (0:ℚ))], [((1:ℚ), (1:ℚ), (1:ℚ))]))
      (fun _ _ => Except.error (α := List Point × List (List ℚ)) PErr.extractFail) =
      .ok ⟨[((0:ℚ), (0:ℚ), (0:ℚ))], [((1:ℚ), (1:ℚ), (1:ℚ))],
        (filter_outliers [((0:ℚ), (0:ℚ), (0:ℚ))] [((1:ℚ), (1:ℚ), (1:ℚ))] 2).1,
        (filter_outliers [((0:ℚ), (0:ℚ), (0:ℚ))] [((1:ℚ), (1:ℚ), (1:ℚ))] 2).2,
        normalize_coordinates
          (filter_outliers [((0:ℚ), (0:ℚ), (0:ℚ))] [((1:ℚ), (1:ℚ), (1:ℚ))] 2).1,
        [], []⟩ := by
    have h1 : process_pointcloud
        (.ok ([((0:ℚ), (0:ℚ), (0:ℚ))], [((1:ℚ), (1:ℚ), (1:ℚ))]))
        (fun _ _ => Except.error (α := List Point × List (List ℚ)) PErr.extractFail) =
        if validate_pointcloud [((0:ℚ), (0:ℚ), (0:ℚ))] [((1:ℚ), (1:ℚ), (1:ℚ))] then
          Except.ok ⟨[((0:ℚ), (0:ℚ), (0:ℚ))], [((1:ℚ), (1:ℚ), (1:ℚ))],
            (filter_outliers [((0:ℚ), (0:ℚ), (0:ℚ))] [((1:ℚ), (1:ℚ), (1:ℚ))] 2).1,
            (filter_outliers [((0:ℚ), (0:ℚ), (0:ℚ))] [((1:ℚ), (1:ℚ), (1:ℚ))] 2).2,
            normalize_coordinates
              (filter_outliers [((0:ℚ), (0:ℚ), (0:ℚ))] [((1:ℚ), (1:ℚ), (1:ℚ))] 2).1,
            [], []⟩
        else .error .invalidCloud := rfl
    rw [h1, if_pos hv]
  refine ⟨?_, ?_, ?_⟩
  · exact (c9_main_aborts_on_pipeline_failure (.error PErr.loadFail)
      (.ok ([((0:ℚ), (0:ℚ), (0:ℚ))], [((1:ℚ), (1:ℚ), (1:ℚ))]))
      (fun _ _ => .error PErr.extractFail) (.ok ()) (.ok ()) PErr.loadFail
      default default).1 rfl
  · exact (c9_main_aborts_on_pipeline_failure
      (.ok ([((0:ℚ), (0:ℚ), (0:ℚ))], [((1:ℚ), (1:ℚ), (1:ℚ))]))
      (.error PErr.loadFail)
      (fun _ _ => .error PErr.extractFail) (.ok ()) (.ok ()) PErr.loadFail
      _ default).2.1 hl rfl
  · exact (c9_main_aborts_on_pipeline_failure
      (.ok ([((0:ℚ), (0:ℚ), (0:ℚ))], [((1:ℚ), (1:ℚ), (1:ℚ))]))
      (.ok ([((0:ℚ), (0:ℚ), (0:ℚ))], [((1:ℚ), (1:ℚ), (1:ℚ))]))
      (fun _ _ => .error PErr.extractFail) (.error PErr.saveFail) (.error PErr.visFail)
      PErr.loadFail _ _).2.2 hl hl
